import Mathlib

/-
Verification development for the local-biz-agent pipeline.

The persistent store (src/database/index.ts, SQLite via better-sqlite3) is
shallowly embedded as a pure state type `DB` with one Lean function per store
operation.  Modelling conventions, fixed once here:

  * SQLite TEXT ids (UUIDs from `randomUUID()`) are modelled as `Nat`.  `DB`
    carries a logical clock `tick`; an operation that calls `randomUUID()` or
    `new Date().toISOString()` draws the current `tick` (ids and timestamps are
    only ever compared for equality/order, so a monotone counter is a faithful
    supply of fresh ids and non-decreasing timestamps).
  * Nullable columns are `Option` fields; a partial-update payload field is
    `Option (Option _)`: `none` = absent (`undefined`, column untouched),
    `some v` = column set to `v` (`v = none` being SQL NULL), matching the
    `value !== undefined` loop in `updateBusiness`/`updateWebsite`.
  * Constraint violations (`PRIMARY KEY`, the two partial UNIQUE indexes of
    `createTables`, and `FOREIGN KEY` under `pragma foreign_keys = ON`) make an
    insert throw `SqliteError`; this is modelled as `Except Unit`.
  * `ORDER BY` is modelled with `List.mergeSort` on the relevant column; ties
    are resolved by list (= insertion) order, which is one of the orders SQLite
    is free to return.
-/

namespace LocalBiz

/-
Kernel-computable models of the JavaScript string primitives the source
leans on.  (The corresponding Lean core `String` functions are implemented
with position-based loops that the kernel cannot evaluate, so the embedding
uses these structural equivalents on the underlying character lists.)
-/

/-- `String.prototype.toLowerCase()` (character-wise). -/
def strLower (s : String) : String := String.mk (s.toList.map Char.toLower)

/-- `String.prototype.trim()` on a character list: strip whitespace from both
ends. -/
def trimChars (l : List Char) : List Char :=
  ((l.dropWhile Char.isWhitespace).reverse.dropWhile Char.isWhitespace).reverse

/-- `String.prototype.split(sep)` for a one-character separator, on character
lists. -/
def splitOnCharAux (sep : Char) : List Char → List Char → List (List Char)
  | acc, [] => [acc.reverse]
  | acc, c :: rest =>
    if c == sep then acc.reverse :: splitOnCharAux sep [] rest
    else splitOnCharAux sep (c :: acc) rest

/-- `String.prototype.split(sep)` for a one-character separator. -/
def splitOnChar (sep : Char) (s : String) : List String :=
  (splitOnCharAux sep [] s.toList).map String.mk

/-- Accumulator loop of `parseDigits`. -/
def parseDigitsGo : List Char → Nat → Option Nat
  | [], acc => some acc
  | c :: rest, acc =>
    if c.isDigit then parseDigitsGo rest (acc * 10 + (c.toNat - 48)) else none

/-- `parseInt(s, 10)` restricted to all-digit strings — the only shape the
mock place-id suffixes take. -/
def parseDigits : List Char → Option Nat
  | [] => none
  | l => parseDigitsGo l 0

/-- Insert into a `le`-sorted list (stable). -/
def orderedInsertBy {α : Type} (le : α → α → Bool) (a : α) : List α → List α
  | [] => [a]
  | b :: l => if le a b then a :: b :: l else b :: orderedInsertBy le a l

/-- A stable structural sort modelling SQL `ORDER BY` (SQLite leaves the
order of equal keys unspecified; this model resolves ties by row order). -/
def orderBy {α : Type} (le : α → α → Bool) : List α → List α
  | [] => []
  | b :: l => orderedInsertBy le b (orderBy le l)

instance {ε α : Type} [DecidableEq ε] [DecidableEq α] : DecidableEq (Except ε α) := fun a b =>
  match a, b with
  | .ok x, .ok y =>
    if h : x = y then isTrue (by rw [h]) else isFalse (by intro hc; cases hc; exact h rfl)
  | .error x, .error y =>
    if h : x = y then isTrue (by rw [h]) else isFalse (by intro hc; cases hc; exact h rfl)
  | .ok _, .error _ => isFalse (by intro hc; cases hc)
  | .error _, .ok _ => isFalse (by intro hc; cases hc)

/-- The six-value business lifecycle from database/types.ts. -/
inductive BusinessStatus where
  | discovered
  | enriched
  | website_generated
  | deployed
  | contacted
  | sold
deriving DecidableEq

/-- Position of a status in the linear lifecycle order
`discovered → enriched → website_generated → deployed → contacted → sold`. -/
def statusRank : BusinessStatus → Nat
  | .discovered => 0
  | .enriched => 1
  | .website_generated => 2
  | .deployed => 3
  | .contacted => 4
  | .sold => 5

/-- A row of the `businesses` table. -/
structure Business where
  id : Nat
  name : String
  business_type : Option String
  category : Option String
  address : Option String
  city : Option String
  state : Option String
  county : Option String
  phone : Option String
  email : Option String
  website_url : Option String
  has_website : Nat
  source : String
  source_id : Option String
  google_place_id : Option String
  discovered_at : Nat
  enriched_at : Option Nat
  status : BusinessStatus
  created_at : Nat
  updated_at : Nat
deriving DecidableEq

/-- A row of the `generated_websites` table. -/
structure GeneratedWebsite where
  id : Nat
  business_id : Nat
  template_name : String
  variation_number : Nat
  html_content : String
  preview_url : Option String
  deployed_at : Option Nat
  created_at : Nat
deriving DecidableEq

/-- A row of the `outreach_log` table. -/
structure OutreachLog where
  id : Nat
  business_id : Nat
  method : String
  sent_at : Nat
  response : Option String
  notes : Option String
deriving DecidableEq

/-- The whole SQLite database plus the logical clock (see header comment). -/
structure DB where
  businesses : List Business
  websites : List GeneratedWebsite
  outreach : List OutreachLog
  tick : Nat
deriving DecidableEq

/-- A freshly initialized database (empty tables). -/
def emptyDB : DB := { businesses := [], websites := [], outreach := [], tick := 0 }

/-- The `BusinessInsert` payload type (database/types.ts). -/
structure BusinessInsert where
  id : Option Nat := none
  name : String
  business_type : Option String := none
  category : Option String := none
  address : Option String := none
  city : Option String := none
  state : Option String := none
  county : Option String := none
  phone : Option String := none
  email : Option String := none
  website_url : Option String := none
  has_website : Option Nat := none
  source : String
  source_id : Option String := none
  google_place_id : Option String := none
  discovered_at : Option Nat := none
  status : Option BusinessStatus := none
deriving DecidableEq

/-- The row built by `insertBusiness`/`insertBusinesses` from a payload: the
`?? null` / `?? 0` / `?? 'discovered'` defaults of database/index.ts, with
`enriched_at` always NULL and `created_at = updated_at = now`. -/
def resolveBusinessInsert (d : BusinessInsert) (id : Nat) (now : Nat) : Business :=
  { id := id
    name := d.name
    business_type := d.business_type
    category := d.category
    address := d.address
    city := d.city
    state := d.state
    county := d.county
    phone := d.phone
    email := d.email
    website_url := d.website_url
    has_website := d.has_website.getD 0
    source := d.source
    source_id := d.source_id
    google_place_id := d.google_place_id
    discovered_at := d.discovered_at.getD now
    enriched_at := none
    status := d.status.getD .discovered
    created_at := now
    updated_at := now }

/-- True when inserting `b` into `rows` would violate the `businesses` PRIMARY
KEY or one of the two partial UNIQUE indexes of `createTables`:
`(source, source_id) WHERE source_id IS NOT NULL` and
`google_place_id WHERE google_place_id IS NOT NULL`. -/
def violatesBusinessUnique (rows : List Business) (b : Business) : Bool :=
  rows.any (fun r => r.id == b.id) ||
  (match b.source_id with
   | some s => rows.any (fun r => r.source == b.source && r.source_id == some s)
   | none => false) ||
  (match b.google_place_id with
   | some p => rows.any (fun r => r.google_place_id == some p)
   | none => false)

/-- `insertBusiness(data)`: single-row INSERT; a uniqueness violation throws
(`.error`), otherwise the new row is appended and returned. -/
def insertBusiness (db : DB) (d : BusinessInsert) : Except Unit (DB × Business) :=
  let b := resolveBusinessInsert d (d.id.getD db.tick) db.tick
  if violatesBusinessUnique db.businesses b then .error ()
  else .ok ({ db with businesses := db.businesses ++ [b], tick := db.tick + 1 }, b)

/-- `insertBusinesses(batch)`: the `INSERT OR IGNORE` loop inside one
transaction; a row that would violate a uniqueness constraint is skipped
(`result.changes = 0`), and the returned count is of rows actually inserted. -/
def insertBusinesses (db : DB) (batch : List BusinessInsert) : DB × Nat :=
  batch.foldl
    (fun acc d =>
      let b := resolveBusinessInsert d (d.id.getD acc.1.tick) acc.1.tick
      if violatesBusinessUnique acc.1.businesses b then acc
      else ({ acc.1 with businesses := acc.1.businesses ++ [b], tick := acc.1.tick + 1 },
            acc.2 + 1))
    (db, 0)

/-- `getBusinessById`. -/
def getBusinessById (db : DB) (id : Nat) : Option Business :=
  db.businesses.find? (fun b => b.id == id)

/-- The `BusinessUpdate` payload type (database/types.ts): every field
optional; an absent field is left untouched. -/
structure BusinessUpdate where
  name : Option String := none
  business_type : Option (Option String) := none
  address : Option (Option String) := none
  city : Option (Option String) := none
  state : Option (Option String) := none
  county : Option (Option String) := none
  phone : Option (Option String) := none
  email : Option (Option String) := none
  website_url : Option (Option String) := none
  has_website : Option Nat := none
  source : Option String := none
  source_id : Option (Option String) := none
  enriched_at : Option (Option Nat) := none
  status : Option BusinessStatus := none
deriving DecidableEq

/-- Apply a `BusinessUpdate` to one row; `updated_at` is always bumped. -/
def applyBusinessUpdate (b : Business) (u : BusinessUpdate) (now : Nat) : Business :=
  { b with
    name := u.name.getD b.name
    business_type := u.business_type.getD b.business_type
    address := u.address.getD b.address
    city := u.city.getD b.city
    state := u.state.getD b.state
    county := u.county.getD b.county
    phone := u.phone.getD b.phone
    email := u.email.getD b.email
    website_url := u.website_url.getD b.website_url
    has_website := u.has_website.getD b.has_website
    source := u.source.getD b.source
    source_id := u.source_id.getD b.source_id
    enriched_at := u.enriched_at.getD b.enriched_at
    status := u.status.getD b.status
    updated_at := now }

/-- `updateBusiness(id, data)`: UPDATE ... WHERE id = ?; returns `none` when no
row matched (`result.changes === 0`), otherwise the re-fetched row. -/
def updateBusiness (db : DB) (id : Nat) (u : BusinessUpdate) : DB × Option Business :=
  if db.businesses.any (fun b => b.id == id) then
    let bs := db.businesses.map (fun b => if b.id == id then applyBusinessUpdate b u db.tick else b)
    let db2 : DB := { db with businesses := bs, tick := db.tick + 1 }
    (db2, getBusinessById db2 id)
  else (db, none)

/-- `updateBusinessStatus(id, status)`. -/
def updateBusinessStatus (db : DB) (id : Nat) (s : BusinessStatus) : DB × Option Business :=
  updateBusiness db id { status := some s }

/-- The enrichment payload of `markBusinessEnriched`. -/
structure EnrichmentData where
  website_url : Option (Option String) := none
  has_website : Bool
  phone : Option (Option String) := none
  email : Option (Option String) := none
  address : Option (Option String) := none
  city : Option (Option String) := none
  state : Option (Option String) := none
deriving DecidableEq

/-- `markBusinessEnriched(id, data)`: compound update setting the enrichment
fields, `has_website` normalized to 0/1, `enriched_at = now`,
`status = 'enriched'`. -/
def markBusinessEnriched (db : DB) (id : Nat) (e : EnrichmentData) : DB × Option Business :=
  updateBusiness db id
    { website_url := e.website_url
      has_website := some (if e.has_website then 1 else 0)
      phone := e.phone
      email := e.email
      address := e.address
      city := e.city
      state := e.state
      enriched_at := some (some db.tick)
      status := some .enriched }

/-- `deleteBusiness(id)`; `ON DELETE CASCADE` removes the owned websites and
outreach rows. -/
def deleteBusiness (db : DB) (id : Nat) : DB × Bool :=
  if db.businesses.any (fun b => b.id == id) then
    ({ db with
        businesses := db.businesses.filter (fun b => b.id != id)
        websites := db.websites.filter (fun w => w.business_id != id)
        outreach := db.outreach.filter (fun o => o.business_id != id) },
     true)
  else (db, false)

/-- `getBusinessesNeedingWebsites(limit)`: `has_website = 0 AND status IN
('discovered','enriched') ORDER BY discovered_at DESC LIMIT ?`. -/
def getBusinessesNeedingWebsites (db : DB) (limit : Nat) : List Business :=
  (orderBy (fun a b => decide (b.discovered_at ≤ a.discovered_at))
    (db.businesses.filter
      (fun b => b.has_website == 0 &&
        (b.status == BusinessStatus.discovered || b.status == BusinessStatus.enriched)))).take
    limit

/-- The `WebsiteInsert` payload type.  `data.preview_url ?? null` collapses an
absent and a null `preview_url`, so one `Option` level suffices. -/
structure WebsiteInsert where
  id : Option Nat := none
  business_id : Nat
  template_name : String
  variation_number : Option Nat := none
  html_content : String
  preview_url : Option String := none
deriving DecidableEq

/-- `getWebsiteById`. -/
def getWebsiteById (db : DB) (id : Nat) : Option GeneratedWebsite :=
  db.websites.find? (fun w => w.id == id)

/-- `insertWebsite(data)`: INSERT (with `deployed_at` always NULL and
`variation_number ?? 1`), then — unconditionally — `updateBusinessStatus(
business_id, 'website_generated')`, then the re-fetched row.  A PRIMARY KEY or
FOREIGN KEY violation throws. -/
def insertWebsite (db : DB) (d : WebsiteInsert) : Except Unit (DB × GeneratedWebsite) :=
  if db.websites.any (fun w => w.id == d.id.getD db.tick) then .error ()
  else if !(db.businesses.any (fun b => b.id == d.business_id)) then .error ()
  else
    let w : GeneratedWebsite :=
      { id := d.id.getD db.tick
        business_id := d.business_id
        template_name := d.template_name
        variation_number := d.variation_number.getD 1
        html_content := d.html_content
        preview_url := d.preview_url
        deployed_at := none
        created_at := db.tick }
    let db1 : DB := { db with websites := db.websites ++ [w], tick := db.tick + 1 }
    let db2 := (updateBusinessStatus db1 d.business_id BusinessStatus.website_generated).1
    .ok (db2, (getWebsiteById db2 (d.id.getD db.tick)).getD w)

/-- `getWebsitesPendingDeployment(limit)`: `deployed_at IS NULL ORDER BY
created_at ASC LIMIT ?` — the deployment work queue, FIFO by creation time. -/
def getWebsitesPendingDeployment (db : DB) (limit : Nat) : List GeneratedWebsite :=
  (orderBy (fun a b => decide (a.created_at ≤ b.created_at))
    (db.websites.filter (fun w => w.deployed_at.isNone))).take limit

/-- The `WebsiteUpdate` payload type. -/
structure WebsiteUpdate where
  template_name : Option String := none
  variation_number : Option Nat := none
  html_content : Option String := none
  preview_url : Option (Option String) := none
  deployed_at : Option (Option Nat) := none
deriving DecidableEq

/-- True when the payload has no defined field (`updates.length === 0`). -/
def WebsiteUpdate.isEmpty (u : WebsiteUpdate) : Bool :=
  u.template_name.isNone && u.variation_number.isNone && u.html_content.isNone &&
  u.preview_url.isNone && u.deployed_at.isNone

/-- Apply a `WebsiteUpdate` to one row. -/
def applyWebsiteUpdate (w : GeneratedWebsite) (u : WebsiteUpdate) : GeneratedWebsite :=
  { w with
    template_name := u.template_name.getD w.template_name
    variation_number := u.variation_number.getD w.variation_number
    html_content := u.html_content.getD w.html_content
    preview_url := u.preview_url.getD w.preview_url
    deployed_at := u.deployed_at.getD w.deployed_at }

/-- `updateWebsite(id, data)`: empty payload short-circuits to a fetch; else
UPDATE ... WHERE id = ?, returning `none` when no row matched. -/
def updateWebsite (db : DB) (id : Nat) (u : WebsiteUpdate) : DB × Option GeneratedWebsite :=
  if u.isEmpty then (db, getWebsiteById db id)
  else if db.websites.any (fun w => w.id == id) then
    let ws := db.websites.map (fun w => if w.id == id then applyWebsiteUpdate w u else w)
    let db2 : DB := { db with websites := ws, tick := db.tick + 1 }
    (db2, getWebsiteById db2 id)
  else (db, none)

/-- `markWebsiteDeployed(id, previewUrl)`: sets `preview_url` and
`deployed_at = now` together; when the website was found, cascades
`status = 'deployed'` onto the owning business. -/
def markWebsiteDeployed (db : DB) (id : Nat) (previewUrl : String) :
    DB × Option GeneratedWebsite :=
  let p := updateWebsite db id
    { preview_url := some (some previewUrl), deployed_at := some (some db.tick) }
  match p.2 with
  | some w => ((updateBusinessStatus p.1 w.business_id BusinessStatus.deployed).1, some w)
  | none => (p.1, none)

/-- `deleteWebsite(id)`. -/
def deleteWebsite (db : DB) (id : Nat) : DB × Bool :=
  if db.websites.any (fun w => w.id == id) then
    ({ db with websites := db.websites.filter (fun w => w.id != id) }, true)
  else (db, false)

/-- The `OutreachInsert` payload type. -/
structure OutreachInsert where
  id : Option Nat := none
  business_id : Nat
  method : String
  sent_at : Option Nat := none
  response : Option String := none
  notes : Option String := none
deriving DecidableEq

/-- `logOutreach(data)`: INSERT, then `updateBusinessStatus(business_id,
'contacted')`.  PRIMARY KEY / FOREIGN KEY violations throw. -/
def logOutreach (db : DB) (d : OutreachInsert) : Except Unit (DB × OutreachLog) :=
  if db.outreach.any (fun o => o.id == d.id.getD db.tick) then .error ()
  else if !(db.businesses.any (fun b => b.id == d.business_id)) then .error ()
  else
    let o : OutreachLog :=
      { id := d.id.getD db.tick
        business_id := d.business_id
        method := d.method
        sent_at := d.sent_at.getD db.tick
        response := d.response
        notes := d.notes }
    let db1 : DB := { db with outreach := db.outreach ++ [o], tick := db.tick + 1 }
    let db2 := (updateBusinessStatus db1 d.business_id BusinessStatus.contacted).1
    .ok (db2, o)

/-- `businessExistsBySource(source, sourceId)`. -/
def businessExistsBySource (db : DB) (source : String) (sourceId : String) : Bool :=
  db.businesses.any (fun b => b.source == source && b.source_id == some sourceId)

/-- `businessExistsByGooglePlaceId(placeId)`. -/
def businessExistsByGooglePlaceId (db : DB) (placeId : String) : Bool :=
  db.businesses.any (fun b => b.google_place_id == some placeId)

/-- `updateOutreachResponse(id, response, notes)`. -/
def updateOutreachResponse (db : DB) (id : Nat) (response : String) (notes : Option String) :
    DB × Option OutreachLog :=
  if db.outreach.any (fun o => o.id == id) then
    let os := db.outreach.map
      (fun o => if o.id == id then { o with response := some response, notes := notes } else o)
    let db2 : DB := { db with outreach := os, tick := db.tick + 1 }
    (db2, db2.outreach.find? (fun o => o.id == id))
  else (db, none)

/-
Discovery module (src/modules/discovery): the Google Places client with its
deterministic mock mode, and DiscoveryService.
-/

/-- The `BusinessCategory` enum (discovery/types.ts); `categoryValue` is the
enum member's string value, which is what gets embedded into mock place ids
and stored in the `category` column. -/
inductive BusinessCategory where
  | restaurant
  | barber_shop
  | auto_repair
  | salon
  | gym
  | retail
  | plumber
  | electrician
  | landscaping
  | cleaning_service
  | other
deriving DecidableEq

/-- String value of each `BusinessCategory` enum member. -/
def categoryValue : BusinessCategory → String
  | .restaurant => "restaurant"
  | .barber_shop => "barber_shop"
  | .auto_repair => "car_repair"
  | .salon => "beauty_salon"
  | .gym => "gym"
  | .retail => "store"
  | .plumber => "plumber"
  | .electrician => "electrician"
  | .landscaping => "landscaper"
  | .cleaning_service => "cleaning"
  | .other => "establishment"

/-- `CATEGORY_LABELS` (discovery/types.ts). -/
def CATEGORY_LABELS : BusinessCategory → String
  | .restaurant => "Restaurants"
  | .barber_shop => "Barber Shops"
  | .auto_repair => "Auto Repair"
  | .salon => "Salons"
  | .gym => "Gyms"
  | .retail => "Retail Stores"
  | .plumber => "Plumbers"
  | .electrician => "Electricians"
  | .landscaping => "Landscaping"
  | .cleaning_service => "Cleaning Services"
  | .other => "Other Businesses"

/-- A `SearchArea` (discovery/types.ts). -/
structure SearchArea where
  city : String
  state : String
  radiusMiles : ℚ
deriving DecidableEq

/-- A `PlacesBusinessResult` (discovery/types.ts), with the optional
`address_components` record flattened into the `ac_` fields (an absent record
and an absent member both read back as `undefined` through `?.`). -/
structure Place where
  place_id : String
  name : String
  formatted_address : String
  ac_city : Option String
  ac_state : Option String
  ac_county : Option String
  ac_street : Option String
  website : Option String
  phone : Option String
  business_status : Option String
  rating : Option ℚ
  user_ratings_total : Option Nat
deriving DecidableEq

/-- The `DiscoveryService` configuration after its constructor has applied the
defaults `maxResultsPerSearch ?? 20` and `onlyOperational ?? true`. -/
structure DiscoveryConfig where
  maxResultsPerSearch : Nat
  minRating : Option ℚ
  onlyOperational : Bool
deriving DecidableEq

/-- JS truthiness of an optional number (`undefined` and `0` are falsy). -/
def ratTruthy : Option ℚ → Bool
  | some q => q != 0
  | none => false

/-- The `hasWebsite` test in the discovery filter:
`place.website && place.website.trim().length > 0` (an absent or
empty/whitespace-only website string counts as no website). -/
def placeHasWebsite (p : Place) : Bool :=
  match p.website with
  | some w => decide (0 < (trimChars w.toList).length)
  | none => false

/-- The filter predicate of `DiscoveryService.discoverForAreaAndCategory`
step 3: a detail-fetched candidate is kept when it passes the operational and
rating gates and has no website. -/
def keepCandidate (cfg : DiscoveryConfig) (p : Place) : Bool :=
  if cfg.onlyOperational && !(p.business_status == some "OPERATIONAL") then false
  else if ratTruthy cfg.minRating && ratTruthy p.rating &&
      decide (p.rating.getD 0 < cfg.minRating.getD 0) then false
  else !(placeHasWebsite p)

/-- The raw `LOWER(name)/LOWER(city)/LOWER(state)` lookup in
`DiscoveryService.saveIfNew`; a row with a NULL city or state never matches
(SQL `LOWER(NULL) = LOWER(?)` is not true). -/
def existsByNameCityState (db : DB) (name city state : String) : Bool :=
  db.businesses.any (fun b =>
    strLower b.name == strLower name &&
    (match b.city with | some c => strLower c == strLower city | none => false) &&
    (match b.state with | some s => strLower s == strLower state | none => false))

/-- `DiscoveryService.saveIfNew(place, category, area)`: skip (returning
`false`) when the `(source='google_places', source_id=place_id)` check or the
case-insensitive name+city+state check matches; otherwise insert with
`status='discovered'`, `has_website=0`, `website_url=null`.  An insert that
violates a uniqueness constraint throws out of `saveIfNew` (`.error`). -/
def saveIfNew (db : DB) (place : Place) (category : BusinessCategory) (area : SearchArea) :
    Except Unit (DB × Bool) :=
  if businessExistsBySource db "google_places" place.place_id then .ok (db, false)
  else if existsByNameCityState db place.name (place.ac_city.getD area.city)
      (place.ac_state.getD area.state) then .ok (db, false)
  else
    match insertBusiness db
      { name := place.name
        business_type := some (CATEGORY_LABELS category)
        address := some (place.ac_street.getD place.formatted_address)
        city := some (place.ac_city.getD area.city)
        state := some (place.ac_state.getD area.state)
        county := place.ac_county
        phone := place.phone
        website_url := none
        has_website := some 0
        source := "google_places"
        source_id := some place.place_id
        category := some (categoryValue category)
        google_place_id := some place.place_id
        status := some .discovered } with
    | .error _ => .error ()
    | .ok r => .ok (r.1, true)

/-- The step-4 save loop of `discoverForAreaAndCategory`: `saveIfNew` on each
surviving candidate, counting saved vs already-exists.  A thrown insert error
aborts the loop (the remaining candidates are not processed and the pair's
stats never reach the run summary); the inserts made before the throw are
keeps, since each one committed independently.  Returns
`(db, saved, alreadyExists, aborted)`. -/
def saveLoop : DB → List Place → BusinessCategory → SearchArea → DB × Nat × Nat × Bool
  | db, [], _, _ => (db, 0, 0, false)
  | db, p :: rest, c, a =>
    match saveIfNew db p c a with
    | .error _ => (db, 0, 0, true)
    | .ok (db2, saved) =>
      let r := saveLoop db2 rest c a
      (r.1, r.2.1 + (if saved then 1 else 0), r.2.2.1 + (if saved then 0 else 1), r.2.2.2)

/-- Per-pair discovery stats (the `stats` record in
`discoverForAreaAndCategory`), plus whether the save loop aborted on a thrown
insert error. -/
structure DiscStats where
  found : Nat
  withoutWebsite : Nat
  saved : Nat
  alreadyExists : Nat
  aborted : Bool
deriving DecidableEq

/-- `DiscoveryService.discoverForAreaAndCategory(area, category)`: search,
detail-fetch each result (`getPlaceDetailsBatch` keeps the non-null details),
filter, then save the survivors.  The places client is abstracted by the
search result list and the `details` lookup, which the mock client
instantiates deterministically. -/
def discoverForAreaAndCategory (db : DB) (cfg : DiscoveryConfig) (area : SearchArea)
    (cat : BusinessCategory) (searchResults : List Place) (details : String → Option Place) :
    DB × DiscStats :=
  if searchResults.length == 0 then
    (db, { found := 0, withoutWebsite := 0, saved := 0, alreadyExists := 0, aborted := false })
  else
    let detailed := searchResults.filterMap (fun p => details p.place_id)
    let withoutWebsites := detailed.filter (keepCandidate cfg)
    let r := saveLoop db withoutWebsites cat area
    (r.1,
     { found := searchResults.length
       withoutWebsite := withoutWebsites.length
       saved := r.2.1
       alreadyExists := r.2.2.1
       aborted := r.2.2.2 })

/-- An apostrophe, kept out of string literals. -/
def apos : String := String.singleton (Char.ofNat 39)

/-- `GooglePlacesClient.getMockBusinessNames(category)`: the fixed name lists
(10 names per category, 5 for OTHER).  Possessive names are written with the
`apos` helper. -/
def getMockBusinessNames : BusinessCategory → List String
  | .restaurant =>
    ["Joe" ++ apos ++ "s Diner", "The Local Grill", "Mama" ++ apos ++ "s Kitchen",
     "Downtown Cafe", "The Hungry Bear", "Sunset Bistro", "Corner Pub & Grill", "Fresh Eats",
     "Southern Comfort Kitchen", "Main Street Pizza"]
  | .barber_shop =>
    ["Classic Cuts", "The Gentleman" ++ apos ++ "s Barber", "Fresh Fades", "Main Street Barber",
     "Sharp Looks Barbershop", "The Cutting Edge", "Old School Barber",
     "Precision Cuts", "The Barber Lounge", "Hometown Barbershop"]
  | .auto_repair =>
    ["Mike" ++ apos ++ "s Auto Shop", "Reliable Auto Repair", "Quick Fix Garage",
     "A1 Auto Service", "Family Auto Care", "Pro Mechanics",
     "Honest Auto Repair", "Fast Lane Auto", "Quality Car Care", "Main Street Motors"]
  | .salon =>
    ["Style Studio", "Beautiful You Salon", "The Hair Loft", "Shear Excellence",
     "Glamour Hair Salon", "Chic Cuts", "The Beauty Bar", "Hair Haven",
     "Elegant Touch Salon", "New Look Hair Studio"]
  | .gym =>
    ["Iron Works Gym", "Fitness First", "Peak Performance Gym", "The Training Zone",
     "Muscle Factory", "Fit Life Gym", "Power House Fitness", "Champion Gym",
     "Active Life Fitness", "Strong Body Gym"]
  | .retail =>
    ["Main Street Boutique", "The Corner Store", "Family Mart", "Local Goods",
     "Value Shop", "Town Square Retail", "The General Store", "Discount Depot",
     "Community Market", "Everyday Essentials"]
  | .plumber =>
    ["Reliable Plumbing", "Quick Drain Solutions", "Pro Plumbers", "AquaFix Plumbing",
     "24/7 Plumbing Service", "Master Plumbers Co", "Clear Drain Pros",
     "Family Plumbing", "Hometown Plumbers", "Expert Pipe Services"]
  | .electrician =>
    ["Bright Spark Electric", "Pro Electric Services", "Power Up Electrical",
     "Safe Wiring Co", "Lightning Electric", "Hometown Electricians",
     "Quality Electric", "Reliable Power Solutions", "Expert Electrical", "Circuit Masters"]
  | .landscaping =>
    ["Green Thumb Landscaping", "Perfect Lawns", "Nature" ++ apos ++ "s Touch", "Pro Lawn Care",
     "Beautiful Yards", "Outdoor Solutions", "Garden Masters",
     "Elite Landscaping", "Fresh Cut Lawns", "Scenic Landscaping"]
  | .cleaning_service =>
    ["Sparkle Clean", "Pristine Cleaning", "Fresh Start Cleaners", "Maid Perfect",
     "Crystal Clear Cleaning", "Pro Clean Services", "Spotless Home",
     "Shine Bright Cleaners", "Deep Clean Pros", "Tidy Home Services"]
  | .other =>
    ["Local Business 1", "Community Services", "Town Enterprise",
     "Main Street Business", "Family Owned Shop"]

/-- Whitespace removal used for the mock place id city component
(`area.city.toLowerCase().replace(/\s/g, ...)`). -/
def removeWhitespace (s : String) : String :=
  String.mk (s.toList.filter (fun c => !c.isWhitespace))

/-- The mock place id `mock_<city>_<category>_<index>` built by
`generateMockBusinesses`. -/
def mockPlaceId (area : SearchArea) (cat : BusinessCategory) (i : Nat) : String :=
  "mock_" ++ removeWhitespace (strLower area.city) ++ "_" ++ categoryValue cat ++ "_" ++
    toString i

/-- `GooglePlacesClient.generateMockBusinesses(area, category, count)`: one
mock search result per index `i < min count names.length`.  The source draws
`Math.random()` for the rating, review count, street name and coordinates of
these search results; none of those fields is ever read (the discovery
pipeline only keeps the `place_id` and re-reads everything from the detail
fetch), so they are modelled as fixed/absent here. -/
def generateMockBusinesses (area : SearchArea) (cat : BusinessCategory) (count : Nat) :
    List Place :=
  let names := getMockBusinessNames cat
  (List.range (min count names.length)).map (fun i =>
    { place_id := mockPlaceId area cat i
      name := names.getD i (CATEGORY_LABELS cat ++ " Business " ++ toString (i + 1))
      formatted_address := toString (100 + i * 10) ++ " Main Street, " ++ area.city ++ ", " ++
        area.state
      ac_city := some area.city
      ac_state := some area.state
      ac_county := none
      ac_street := some (toString (100 + i * 10) ++ " Main Street")
      website := none
      phone := none
      business_status := some "OPERATIONAL"
      rating := none
      user_ratings_total := none })

/-- `GooglePlacesClient.mockGetPlaceDetails(placeId)`: parses the numeric
suffix of the mock place id (`parseInt(parts[parts.length-1] ?? '0', 10)` —
mock ids always end in a decimal-digit run, the only inputs this model covers)
and deterministically reports a website exactly when `index % 5 < 3`. -/
def mockGetPlaceDetails (placeId : String) : Option Place :=
  let parts := splitOnChar '_' placeId
  let index := (parseDigits (((parts.getLast?).getD "0").toList)).getD 0
  let hasWebsite := index % 5 < 3
  some
    { place_id := placeId
      name := "Mock Business " ++ toString index
      formatted_address := toString (100 + index) ++ " Main Street"
      ac_city := none
      ac_state := none
      ac_county := none
      ac_street := none
      website := if hasWebsite then some ("https://mockbusiness" ++ toString index ++ ".com")
                 else none
      phone := some ("(555) " ++ toString (100 + index) ++ "-" ++ toString (1000 + index))
      business_status := some "OPERATIONAL"
      rating := some (7 / 2 + (index % 3 : ℚ) / 2)
      user_ratings_total := some (10 + index * 5) }

/-- A mock-mode discovery run for one area and category: `searchBusinesses`
returns `generateMockBusinesses`, and every detail fetch goes through
`mockGetPlaceDetails`. -/
def discoverMockRun (db : DB) (cfg : DiscoveryConfig) (area : SearchArea)
    (cat : BusinessCategory) : DB × DiscStats :=
  discoverForAreaAndCategory db cfg area cat
    (generateMockBusinesses area cat cfg.maxResultsPerSearch) mockGetPlaceDetails

/-
Generation module (src/modules/generator/index.ts).
-/

/-- `GeneratorService.TEMPLATE_ORDER` (the `WebsiteTemplate` enum values, in
generation order). -/
def TEMPLATE_ORDER : List String := ["suspended_dark", "suspended_light", "suspended_bold"]

/-- `GeneratorService.generateForBusiness`: one AI call per template; each
success is persisted via `insertWebsite` with `variation_number = i + 1`; a
failed call or a throwing insert is caught and skipped.  The AI client is
abstracted by `gen` (it returns `none` when `generateWebsite` throws). -/
def generateForBusiness (db : DB) (b : Business) (templates : List String)
    (gen : Business → String → Option String) : DB :=
  templates.enum.foldl
    (fun dbAcc it =>
      match gen b it.2 with
      | some html =>
        match insertWebsite dbAcc
          { business_id := b.id
            template_name := it.2
            variation_number := some (it.1 + 1)
            html_content := html } with
        | .ok r => r.1
        | .error _ => dbAcc
      | none => dbAcc)
    db

/-- The generation stage (`generateForDiscovered(limit, config)`): pull the
`getBusinessesNeedingWebsites` queue once, then generate for each business in
order, with `TEMPLATE_ORDER` truncated to `templatesPerBusiness`. -/
def generateStage (db : DB) (limit n : Nat) (gen : Business → String → Option String) : DB :=
  (getBusinessesNeedingWebsites db limit).foldl
    (fun dbAcc b => generateForBusiness dbAcc b (TEMPLATE_ORDER.take n) gen) db

/-
Deployment module (the DeploymentService of the deployment module file).
-/

/-- `DeploymentService.deployPending(limit)`: pull the FIFO pending queue
once; for each website resolve the owning business from the current store
(missing business counts as failed and is skipped), call the Vercel client
(abstracted by the `deployOk`/`deployUrl` oracles), and on success
`markWebsiteDeployed` with the returned URL. -/
def deployStage (db : DB) (limit : Nat) (deployOk : GeneratedWebsite → Business → Bool)
    (deployUrl : GeneratedWebsite → Business → String) : DB :=
  (getWebsitesPendingDeployment db limit).foldl
    (fun dbAcc w =>
      match getBusinessById dbAcc w.business_id with
      | none => dbAcc
      | some b =>
        if deployOk w b then (markWebsiteDeployed dbAcc w.id (deployUrl w b)).1 else dbAcc)
    db

/-- One pipeline run sequence: discovery, then generation, then deployment
(scripts/pipeline.ts order), each stage reading the store state the previous
one left. -/
def pipelineRun (db : DB) (cfg : DiscoveryConfig) (area : SearchArea) (cat : BusinessCategory)
    (searchResults : List Place) (details : String → Option Place)
    (genLimit genN : Nat) (gen : Business → String → Option String)
    (deployLimit : Nat) (deployOk : GeneratedWebsite → Business → Bool)
    (deployUrl : GeneratedWebsite → Business → String) : DB :=
  deployStage
    (generateStage (discoverForAreaAndCategory db cfg area cat searchResults details).1
      genLimit genN gen)
    deployLimit deployOk deployUrl

/-
Deployment adapter (src/modules/deployment/vercel-client.ts): subdomain
sanitization and project naming.
-/

/-- A character the `[^a-z0-9]+` regex of `sanitizeSubdomain` keeps (after the
string has been lowercased). -/
def isSubdomainChar (c : Char) : Bool :=
  (decide (97 ≤ c.toNat) && decide (c.toNat ≤ 122)) ||
  (decide (48 ≤ c.toNat) && decide (c.toNat ≤ 57))

/-- The run-collapsing loop of the `[^a-z0-9]+` replacement: the flag records
whether the scan is inside a non-alphanumeric run whose hyphen has already
been emitted. -/
def collapseGo : Bool → List Char → List Char
  | _, [] => []
  | afterHyphen, c :: rest =>
    if isSubdomainChar c then c :: collapseGo false rest
    else if afterHyphen then collapseGo true rest
    else Char.ofNat 45 :: collapseGo true rest

/-- `.replace(/[^a-z0-9]+/g, ...)` with a hyphen replacement: every maximal
run of non-alphanumeric characters collapses to a single hyphen. -/
def collapseNonAlnum (l : List Char) : List Char := collapseGo false l

/-- The `/^-|-$/g` pass: the regex removes one hyphen anchored at the start
and one anchored at the end (after the collapse pass there is at most one of
each). -/
def stripEdgeHyphens (l : List Char) : List Char :=
  let l1 := match l with
    | c :: t => if c == Char.ofNat 45 then t else l
    | [] => l
  if l1.getLast? == some (Char.ofNat 45) then l1.dropLast else l1

/-- `VercelClient.sanitizeSubdomain(businessName)`: lowercase, collapse
non-alphanumeric runs to single hyphens, strip the edge hyphens, then
`.slice(0, 50)`. -/
def sanitizeSubdomain (businessName : String) : String :=
  String.mk ((stripEdgeHyphens (collapseNonAlnum (businessName.toList.map Char.toLower))).take 50)

/-- `VercelClient.generateSubdomain(businessName, variationNumber)`. -/
def generateSubdomain (businessName : String) (variationNumber : Nat) : String :=
  sanitizeSubdomain businessName ++ "-v" ++ toString variationNumber

/-- The project identifier `VercelClient.createProject` derives and uses as
the Vercel project name (`projectName = subdomain`). -/
def createProjectName (businessName : String) (variationNumber : Nat) : String :=
  generateSubdomain businessName variationNumber

/-
Rate limiter (src/utils/index.ts).  Time is modelled by exact rationals
(seconds); `sleep(waitTime)` in the single-threaded source resumes exactly at
`now + waitTime` in this idealized clock, and the millisecond scaling
`(1 - tokens) * (1000 / refillRate)` becomes `(1 - tokens) / refillRate`
seconds.
-/

/-- The `RateLimiter` state: `constructor(requestsPerSecond)` sets
`maxTokens = tokens = refillRate = requestsPerSecond` and stamps
`lastRefill`. -/
structure RateLimiter where
  tokens : ℚ
  lastRefill : ℚ
  maxTokens : ℚ
  refillRate : ℚ
deriving DecidableEq

/-- `new RateLimiter(requestsPerSecond)` at clock time `now`. -/
def RateLimiter.make (requestsPerSecond : ℚ) (now : ℚ) : RateLimiter :=
  { tokens := requestsPerSecond
    lastRefill := now
    maxTokens := requestsPerSecond
    refillRate := requestsPerSecond }

/-- `RateLimiter.refill()` at clock time `now`. -/
def RateLimiter.refill (s : RateLimiter) (now : ℚ) : RateLimiter :=
  { s with
    tokens := min s.maxTokens (s.tokens + (now - s.lastRefill) * s.refillRate)
    lastRefill := now }

/-- `RateLimiter.acquire()` started at clock time `now`: refill; when fewer
than one token is held, sleep exactly the deficit time and refill again; then
debit one token.  Returns the new state and the completion time. -/
def RateLimiter.acquire (s : RateLimiter) (now : ℚ) : RateLimiter × ℚ :=
  let s1 := s.refill now
  if s1.tokens < 1 then
    let wait := (1 - s1.tokens) / s1.refillRate
    let s2 := s1.refill (now + wait)
    ({ s2 with tokens := s2.tokens - 1 }, now + wait)
  else ({ s1 with tokens := s1.tokens - 1 }, now)

/-- `n` back-to-back acquisitions (each one issued the instant the previous
one completes), returning the state and the completion time of the last. -/
def RateLimiter.acquireRun (s : RateLimiter) (now : ℚ) : Nat → RateLimiter × ℚ
  | 0 => (s, now)
  | n + 1 =>
    let r := RateLimiter.acquireRun s now n
    r.1.acquire r.2

/-
AI generation adapter (src/modules/generator/claude-client.ts): response
cleanup.
-/

/-- Character-level lowercasing (`String.toLowerCase()` restricted to the
ASCII range relevant to the fence/doctype/html markers). -/
def lowerChars (l : List Char) : List Char := l.map Char.toLower

/-- Index of the first occurrence of `pat` in `hay`
(JS `String.indexOf`, as an `Option` instead of `-1`). -/
def firstIdxOf (hay pat : List Char) : Option Nat :=
  match hay with
  | [] => if pat.isPrefixOf ([] : List Char) then some 0 else none
  | c :: t =>
    if pat.isPrefixOf (c :: t) then some 0 else (firstIdxOf t pat).map (fun i => i + 1)

/-- Index of the last occurrence of `pat` in `hay` (JS `String.lastIndexOf`). -/
def lastIdxOf (hay pat : List Char) : Option Nat :=
  match hay with
  | [] => if pat.isPrefixOf ([] : List Char) then some 0 else none
  | _ :: t =>
    match lastIdxOf t pat with
    | some j => some (j + 1)
    | none => if pat.isPrefixOf hay then some 0 else none

/-- `ClaudeClient.cleanHtmlResponse(response)`: trim; strip a leading
fence; strip a trailing fence; cut everything before the first
case-insensitive occurrence of the doctype marker when it is not already at
index 0 (`doctypeIndex > 0`); cut everything after the last case-insensitive
occurrence of the closing html tag; trim. -/
def cleanHtmlResponse (response : String) : String :=
  let html0 := trimChars response.toList
  let html1 :=
    if ("```html".toList).isPrefixOf html0 then html0.drop 7
    else if ("```".toList).isPrefixOf html0 then html0.drop 3
    else html0
  let html2 :=
    if ("```".toList).isSuffixOf html1 then html1.take (html1.length - 3) else html1
  let html3 :=
    match firstIdxOf (lowerChars html2) ("<!doctype html>".toList) with
    | some i => if 0 < i then html2.drop i else html2
    | none => html2
  let html4 :=
    match lastIdxOf (lowerChars html3) ("</html>".toList) with
    | some i => html3.take (i + 7)
    | none => html3
  String.mk (trimChars html4)

/-- Stated from the cleanup sentence of the specification: strip a leading
markdown code fence. -/
def specStripLeadFence (s : List Char) : List Char :=
  if ("```html".toList).isPrefixOf s then s.drop 7
  else if ("```".toList).isPrefixOf s then s.drop 3
  else s

/-- Stated from the cleanup sentence of the specification: strip a trailing
markdown code fence. -/
def specStripTrailFence (s : List Char) : List Char :=
  if ("```".toList).isSuffixOf s then s.take (s.length - 3) else s

/-- Stated from the cleanup sentence of the specification: remove everything
before the first case-insensitive occurrence of `pat` — that is, keep the
longest suffix that starts (case-insensitively) with `pat` — unless the
occurrence is already at the start; leave the text alone when there is no
occurrence. -/
def specDropBeforeFirst (pat : List Char) (s : List Char) : List Char :=
  match s.tails.find? (fun t => pat.isPrefixOf (lowerChars t)) with
  | some t => if t.length == s.length then s else s.drop (s.length - t.length)
  | none => s

/-- Stated from the cleanup sentence of the specification: remove everything
after the last case-insensitive occurrence of `pat` — that is, keep the text
up to and including the occurrence that starts the shortest suffix beginning
(case-insensitively) with `pat`; leave the text alone when there is no
occurrence. -/
def specKeepThroughLast (pat : List Char) (s : List Char) : List Char :=
  match s.tails.reverse.find? (fun t => pat.isPrefixOf (lowerChars t)) with
  | some t => s.take (s.length - t.length + pat.length)
  | none => s

/-- The response cleanup as the specification states it: strip the fences,
truncate before the first case-insensitive doctype occurrence when it is not
already at the start, truncate after the last case-insensitive closing html
tag (trimming as the defensive framing around all of it). -/
def cleanHtmlResponseSpec (response : String) : String :=
  let s := trimChars response.toList
  let s1 := specStripTrailFence (specStripLeadFence s)
  let s2 := specDropBeforeFirst ("<!doctype html>".toList) s1
  let s3 := specKeepThroughLast ("</html>".toList) s2
  String.mk (trimChars s3)

/-
Claim-level predicates and the reachability relation over the store
operations.
-/

/-- The status of the business with the given id, when present. -/
def statusOf (db : DB) (id : Nat) : Option BusinessStatus :=
  (getBusinessById db id).map (fun b => b.status)

/-- The pending-deployment invariant of the data model:
`preview_url IS NULL ⟺ deployed_at IS NULL` for every generated-website row. -/
def pendingIffBothNull (db : DB) : Prop :=
  ∀ w ∈ db.websites, (w.preview_url = none ↔ w.deployed_at = none)

/-- Foreign-key soundness: every website row has an owning business row. -/
def ownersExist (db : DB) : Prop :=
  ∀ w ∈ db.websites, ∃ b ∈ db.businesses, b.id = w.business_id

/-- No two distinct business rows share a non-null `google_place_id`. -/
def googlePlaceIdsUnique (db : DB) : Prop :=
  (db.businesses.filterMap (fun b => b.google_place_id)).Nodup

/-- Business primary keys are unique. -/
def businessIdsNodup (db : DB) : Prop :=
  (db.businesses.map (fun b => b.id)).Nodup

/-- Website primary keys are unique. -/
def websiteIdsNodup (db : DB) : Prop :=
  (db.websites.map (fun w => w.id)).Nodup

/-- Every pending (undeployed) website is owned by a business whose status is
at `deployed` or earlier in the lifecycle order. -/
def pendingOwnersBounded (db : DB) : Prop :=
  ∀ w ∈ db.websites, w.deployed_at = none →
    ∀ b ∈ db.businesses, b.id = w.business_id → statusRank b.status ≤ 3

/-- Statuses never regress between two snapshots: any business row of the
first snapshot compares `≤` (in lifecycle rank) against any same-id row of the
second. -/
def statusMonotoneFrom (db1 db2 : DB) : Prop :=
  ∀ b1 ∈ db1.businesses, ∀ b2 ∈ db2.businesses,
    b1.id = b2.id → statusRank b1.status ≤ statusRank b2.status

/-- Row-wise evolution of one business row: same key, status at `≥` lifecycle
rank.  `List.Forall₂` of this relation tracks a stage's businesses table
row-by-row. -/
def rowEvolves (b1 b2 : Business) : Prop :=
  b1.id = b2.id ∧ statusRank b1.status ≤ statusRank b2.status

/-- The structural soundness bundle every reachable store state enjoys:
unique primary keys on both tables, the partial-unique `google_place_id`
index, and foreign-key soundness of website ownership. -/
def StoreInv (db : DB) : Prop :=
  businessIdsNodup db ∧ websiteIdsNodup db ∧ googlePlaceIdsUnique db ∧ ownersExist db

/-- Evolution bundle of a generation-stage fragment working for the business
keyed `bid`: row-wise monotone businesses, per-key rank bounds `≤ k` (any
`k ≥ 2`, the rank of `website_generated`) carried forward, only pending
websites owned by `bid` appended, structural invariants preserved. -/
def genEvolves (bid : Nat) (dbA dbB : DB) : Prop :=
  List.Forall₂ rowEvolves dbA.businesses dbB.businesses ∧
  (∀ (q k : Nat), 2 ≤ k →
    (∀ x ∈ dbA.businesses, x.id = q → statusRank x.status ≤ k) →
    ∀ x ∈ dbB.businesses, x.id = q → statusRank x.status ≤ k) ∧
  (∃ newW, dbB.websites = dbA.websites ++ newW ∧
    ∀ w ∈ newW, w.deployed_at = none ∧ w.business_id = bid) ∧
  (StoreInv dbA → StoreInv dbB)

/-- Evolution bundle of the whole generation stage: as `genEvolves`, but each
appended pending website's owner is bounded at rank `≤ 2` in the final
snapshot. -/
def genStageEvolves (dbA dbB : DB) : Prop :=
  List.Forall₂ rowEvolves dbA.businesses dbB.businesses ∧
  (∀ (q k : Nat), 2 ≤ k →
    (∀ x ∈ dbA.businesses, x.id = q → statusRank x.status ≤ k) →
    ∀ x ∈ dbB.businesses, x.id = q → statusRank x.status ≤ k) ∧
  (∃ newW, dbB.websites = dbA.websites ++ newW ∧
    ∀ w ∈ newW, w.deployed_at = none ∧
      ∀ x ∈ dbB.businesses, x.id = w.business_id → statusRank x.status ≤ 2) ∧
  (StoreInv dbA → StoreInv dbB)

/-- Evolution bundle of a deployment-stage fragment: row-wise monotone
businesses, per-key rank bounds `≤ k` (any `k ≥ 3`, the rank of `deployed`)
carried forward, website keys and ownership untouched, structural invariants
preserved. -/
def deployEvolvesRel (dbA dbB : DB) : Prop :=
  List.Forall₂ rowEvolves dbA.businesses dbB.businesses ∧
  (∀ (q k : Nat), 3 ≤ k →
    (∀ x ∈ dbA.businesses, x.id = q → statusRank x.status ≤ k) →
    ∀ x ∈ dbB.businesses, x.id = q → statusRank x.status ≤ k) ∧
  dbB.websites.map (fun w => (w.id, w.business_id)) =
    dbA.websites.map (fun w => (w.id, w.business_id)) ∧
  (StoreInv dbA → StoreInv dbB)

/-- One mutating store operation, as exposed by the database layer.  Failed
inserts throw without changing the store, so only the successful outcomes
produce steps. -/
inductive Step : DB → DB → Prop where
  | insertBusinessStep (db : DB) (d : BusinessInsert) (db2 : DB) (b : Business) :
      insertBusiness db d = .ok (db2, b) → Step db db2
  | insertBusinessesStep (db : DB) (batch : List BusinessInsert) :
      Step db (insertBusinesses db batch).1
  | updateBusinessStep (db : DB) (id : Nat) (u : BusinessUpdate) :
      Step db (updateBusiness db id u).1
  | markBusinessEnrichedStep (db : DB) (id : Nat) (e : EnrichmentData) :
      Step db (markBusinessEnriched db id e).1
  | deleteBusinessStep (db : DB) (id : Nat) :
      Step db (deleteBusiness db id).1
  | insertWebsiteStep (db : DB) (d : WebsiteInsert) (db2 : DB) (w : GeneratedWebsite) :
      insertWebsite db d = .ok (db2, w) → Step db db2
  | updateWebsiteStep (db : DB) (id : Nat) (u : WebsiteUpdate) :
      Step db (updateWebsite db id u).1
  | markWebsiteDeployedStep (db : DB) (id : Nat) (url : String) :
      Step db (markWebsiteDeployed db id url).1
  | deleteWebsiteStep (db : DB) (id : Nat) :
      Step db (deleteWebsite db id).1
  | logOutreachStep (db : DB) (d : OutreachInsert) (db2 : DB) (o : OutreachLog) :
      logOutreach db d = .ok (db2, o) → Step db db2
  | updateOutreachResponseStep (db : DB) (id : Nat) (response : String) (notes : Option String) :
      Step db (updateOutreachResponse db id response notes).1

/-- A store state reachable from a fresh database through the store
operations. -/
def Reachable (db : DB) : Prop :=
  Relation.ReflTransGen Step emptyDB db

/-- The store mutations the pipeline itself performs: everything except raw
`updateWebsite`, and with `insertWebsite` always called without a
`preview_url` (as the generation orchestrator does); website rows are only
ever mutated through `markWebsiteDeployed`. -/
inductive PipelineStep : DB → DB → Prop where
  | insertBusinessStep (db : DB) (d : BusinessInsert) (db2 : DB) (b : Business) :
      insertBusiness db d = .ok (db2, b) → PipelineStep db db2
  | insertBusinessesStep (db : DB) (batch : List BusinessInsert) :
      PipelineStep db (insertBusinesses db batch).1
  | updateBusinessStep (db : DB) (id : Nat) (u : BusinessUpdate) :
      PipelineStep db (updateBusiness db id u).1
  | markBusinessEnrichedStep (db : DB) (id : Nat) (e : EnrichmentData) :
      PipelineStep db (markBusinessEnriched db id e).1
  | deleteBusinessStep (db : DB) (id : Nat) :
      PipelineStep db (deleteBusiness db id).1
  | insertWebsiteStep (db : DB) (d : WebsiteInsert) (db2 : DB) (w : GeneratedWebsite) :
      d.preview_url = none → insertWebsite db d = .ok (db2, w) → PipelineStep db db2
  | markWebsiteDeployedStep (db : DB) (id : Nat) (url : String) :
      PipelineStep db (markWebsiteDeployed db id url).1
  | deleteWebsiteStep (db : DB) (id : Nat) :
      PipelineStep db (deleteWebsite db id).1
  | logOutreachStep (db : DB) (d : OutreachInsert) (db2 : DB) (o : OutreachLog) :
      logOutreach db d = .ok (db2, o) → PipelineStep db db2
  | updateOutreachResponseStep (db : DB) (id : Nat) (response : String) (notes : Option String) :
      PipelineStep db (updateOutreachResponse db id response notes).1

/-- A store state reachable from a fresh database through the pipeline's own
mutations. -/
def PipelineReachable (db : DB) : Prop :=
  Relation.ReflTransGen PipelineStep emptyDB db

/-- The `(id, status)` projection of the businesses table, in row order. -/
def StatusView (db : DB) : List (Nat × BusinessStatus) :=
  db.businesses.map (fun b => (b.id, b.status))

/-- Effect of `UPDATE businesses SET status = s WHERE id = id` on the
`(id, status)` projection. -/
def setStatusView (v : List (Nat × BusinessStatus)) (id : Nat) (s : BusinessStatus) :
    List (Nat × BusinessStatus) :=
  v.map (fun p => if p.1 = id then (p.1, s) else p)

/-- How the generation stage evolves the store between two intermediate
snapshots: business keys are preserved, the only status writes set
`website_generated` on ids drawn from `low` (the stage's work queue), and the
only website changes append pending rows owned by ids in `low`. -/
def GenEvolved (low : List Nat) (db out : DB) : Prop :=
  (StatusView out).map Prod.fst = (StatusView db).map Prod.fst ∧
  (∀ q ∈ StatusView out, q ∈ StatusView db ∨
    (q.2 = BusinessStatus.website_generated ∧ q.1 ∈ low)) ∧
  (∃ newWs, out.websites = db.websites ++ newWs ∧
    ∀ w ∈ newWs, w.deployed_at = none ∧ w.business_id ∈ low) ∧
  out.outreach = db.outreach

/-- How the deployment stage evolves the store between two intermediate
snapshots: business keys are preserved, the only status writes set `deployed`
on ids drawn from `own` (the owners of the stage's pending queue), and
website rows keep their identity and ownership (only `preview_url` and
`deployed_at` move). -/
def DeployEvolved (own : List Nat) (db out : DB) : Prop :=
  (StatusView out).map Prod.fst = (StatusView db).map Prod.fst ∧
  (∀ q ∈ StatusView out, q ∈ StatusView db ∨
    (q.2 = BusinessStatus.deployed ∧ q.1 ∈ own)) ∧
  out.websites.map (fun w => (w.id, w.business_id)) =
    db.websites.map (fun w => (w.id, w.business_id)) ∧
  out.outreach = db.outreach

/-- The discovery filter exactly as the claim words it: kept when the website
field is absent or an empty/whitespace-only string, AND (when
`onlyOperational` is configured) the business status equals OPERATIONAL, AND
(when a minimum rating is configured) the rating is at or above the
threshold. -/
def keepClaimed (cfg : DiscoveryConfig) (p : Place) : Prop :=
  (p.website = none ∨ ∀ w, p.website = some w → (trimChars w.toList).length = 0) ∧
  (cfg.onlyOperational = true → p.business_status = some "OPERATIONAL") ∧
  (∀ θ, cfg.minRating = some θ → ∃ r, p.rating = some r ∧ θ ≤ r)

/-- The discovery filter as amended: the rating gate only applies when the
configured minimum is nonzero and the candidate reports a nonzero rating
(JS truthiness guards both operands before the comparison runs). -/
def keepAmendedProp (cfg : DiscoveryConfig) (p : Place) : Prop :=
  (p.website = none ∨ ∀ w, p.website = some w → (trimChars w.toList).length = 0) ∧
  (cfg.onlyOperational = true → p.business_status = some "OPERATIONAL") ∧
  (∀ θ r, cfg.minRating = some θ → θ ≠ 0 → p.rating = some r → r ≠ 0 → θ ≤ r)

/-
Concrete fixtures used by witnesses and counterexamples.
-/

/-- Projection of an insert result back to a database (the fallback is never
reached on the fixture inputs below). -/
def exceptDB {α : Type} (r : Except Unit (DB × α)) (fallback : DB) : DB :=
  match r with
  | .ok p => p.1
  | .error _ => fallback

/-- A plain manually-sourced business insert. -/
def exBizIns : BusinessInsert := { name := "Alpha Services", source := "manual" }

/-- The store after inserting `exBizIns` into a fresh database. -/
def exDB1 : DB := exceptDB (insertBusiness emptyDB exBizIns) emptyDB

/-- A website insert that passes a non-null `preview_url` (allowed by the
`WebsiteInsert` type). -/
def exWebInsPreview : WebsiteInsert :=
  { business_id := 0
    template_name := "suspended_dark"
    html_content := "<html></html>"
    preview_url := some "https://preview.mock" }

/-- The store after `insertWebsite` with a non-null `preview_url`. -/
def exDBBadWebsite : DB := exceptDB (insertWebsite exDB1 exWebInsPreview) exDB1

/-- A website insert without a `preview_url` (the generation orchestrator's
call shape). -/
def exWebIns : WebsiteInsert :=
  { business_id := 0
    template_name := "suspended_dark"
    html_content := "<html></html>" }

/-- The store after inserting a business and one pending website. -/
def exDBPending : DB := exceptDB (insertWebsite exDB1 exWebIns) exDB1

/-- An outreach insert against the fixture business. -/
def exOutIns : OutreachInsert := { business_id := 0, method := "email" }

/-- Business 0 at status `contacted` while its generated website is still
pending deployment. -/
def exDBContacted : DB := exceptDB (logOutreach exDBPending exOutIns) exDBPending

/-- A generation oracle that always fails (no AI output). -/
def genNone : Business → String → Option String := fun _ _ => none

/-- A details oracle that never answers (unused when the search is empty). -/
def detailsNone : String → Option Place := fun _ => none

/-- A deployment oracle that always succeeds. -/
def deployOkAll : GeneratedWebsite → Business → Bool := fun _ _ => true

/-- The mock deployment URL oracle. -/
def deployUrlMock : GeneratedWebsite → Business → String := fun _ _ => "https://mock-deploy.local"

/-- The default discovery configuration after the constructor defaults. -/
def cfgDefault : DiscoveryConfig :=
  { maxResultsPerSearch := 20, minRating := none, onlyOperational := true }

/-- The discovery configuration of end-to-end scenario A
(`maxResultsPerSearch = 5`). -/
def mockCfg5 : DiscoveryConfig :=
  { maxResultsPerSearch := 5, minRating := none, onlyOperational := true }

/-- The mock search area used throughout the source examples. -/
def areaHS : SearchArea := { city := "Holly Springs", state := "MS", radiusMiles := 10 }

/-- A registry-sourced business row that carries a `google_place_id` under a
different `(source, source_id)` provenance. -/
def exBizInsRegistry : BusinessInsert :=
  { name := "Alpha Services"
    source := "manual"
    source_id := some "xyz"
    google_place_id := some "P" }

/-- The store holding `exBizInsRegistry`. -/
def exDBRegistry : DB := exceptDB (insertBusiness emptyDB exBizInsRegistry) emptyDB

/-- A discovery candidate whose place id collides with the registry row's
`google_place_id` but matches neither dedup lookup. -/
def exPlaceP : Place :=
  { place_id := "P"
    name := "Beta Cuts"
    formatted_address := "1 Main Street"
    ac_city := none
    ac_state := none
    ac_county := none
    ac_street := none
    website := none
    phone := none
    business_status := some "OPERATIONAL"
    rating := none
    user_ratings_total := none }

/-- A discovery configuration with a minimum-rating threshold. -/
def cfgMinRating4 : DiscoveryConfig :=
  { maxResultsPerSearch := 20, minRating := some 4, onlyOperational := true }

/-- An operational candidate with no website and no rating at all. -/
def exPlaceNoRating : Place :=
  { place_id := "X1"
    name := "Quiet Corner"
    formatted_address := "2 Main Street"
    ac_city := none
    ac_state := none
    ac_county := none
    ac_street := none
    website := none
    phone := none
    business_status := some "OPERATIONAL"
    rating := none
    user_ratings_total := none }

/-- A 51-character business name whose sanitized form gets cut by the length
cap right at a hyphen. -/
def exLongName : String := String.mk (List.replicate 49 (Char.ofNat 97)) ++ " b"

/-- Business 0 pushed to the end of the lifecycle. -/
def exDBSold : DB := (updateBusinessStatus exDB1 0 .sold).1

/-- A second website insert against the sold business. -/
def exWebIns2 : WebsiteInsert :=
  { business_id := 0
    template_name := "suspended_light"
    html_content := "<html>x</html>" }

/-
Theorems.  C7: the token bucket.
-/

/-- `k ≤ capacity` back-to-back acquisitions from a fresh full bucket all
complete instantly, leaving `capacity - k` tokens. -/
theorem acquireRun_within_capacity (R : ℕ) (t0 : ℚ) :
    ∀ k, k ≤ R → RateLimiter.acquireRun (RateLimiter.make R t0) t0 k =
      ({ tokens := (R : ℚ) - k, lastRefill := t0, maxTokens := R, refillRate := R }, t0) := by
  intro k
  induction k with
  | zero =>
    intro _
    simp [RateLimiter.acquireRun, RateLimiter.make]
  | succ n ih =>
    intro hle
    have hn : n ≤ R := Nat.le_of_succ_le hle
    have hcast : (n : ℚ) + 1 ≤ (R : ℚ) := by exact_mod_cast hle
    rw [RateLimiter.acquireRun, ih hn]
    simp only [RateLimiter.acquire, RateLimiter.refill]
    have hsub : ((R : ℚ) - n + (t0 - t0) * R) = (R : ℚ) - n := by ring
    have hmin : min (R : ℚ) ((R : ℚ) - n + (t0 - t0) * R) = (R : ℚ) - n := by
      rw [hsub]
      exact min_eq_right (by linarith)
    have hnotlt : ¬ ((R : ℚ) - n < 1) := by linarith
    simp only [hmin, hnotlt, if_false]
    have : (R : ℚ) - n - 1 = (R : ℚ) - (n + 1 : ℕ) := by push_cast; ring
    simp [this]

/-- C7: a caller that finds the bucket holding fewer than one token waits
exactly the deficit time `(1 - tokens) / refillRate` before debiting a token,
and `C + 1` immediate acquisitions against a fresh bucket of capacity `C = R`
refilling at `R` tokens per second put the last completion at least `1/R`
seconds after the first. -/
theorem c7_rate_limiter_deficit_and_burst (R : ℕ) (t0 : ℚ) (hR : 1 ≤ R) :
    (∀ (s : RateLimiter) (now : ℚ), (s.refill now).tokens < 1 →
      (s.acquire now).2 = now + (1 - (s.refill now).tokens) / s.refillRate) ∧
    1 / (R : ℚ) ≤
      ((RateLimiter.make R t0).acquireRun t0 (R + 1)).2 -
        ((RateLimiter.make R t0).acquireRun t0 1).2 := by
  constructor
  · intro s now h
    simp only [RateLimiter.acquire, h, if_true]
    rfl
  · have hfull := acquireRun_within_capacity R t0 R (le_refl R)
    have h1 := acquireRun_within_capacity R t0 1 hR
    have hRpos : (0 : ℚ) < R := by
      have : (1 : ℚ) ≤ R := by exact_mod_cast hR
      linarith
    rw [RateLimiter.acquireRun, hfull, h1]
    simp only [RateLimiter.acquire, RateLimiter.refill]
    have hz : (R : ℚ) - R + (t0 - t0) * R = 0 := by ring
    have hmin : min (R : ℚ) ((R : ℚ) - R + (t0 - t0) * R) = 0 := by
      rw [hz]
      exact min_eq_right (by linarith)
    have hlt : ((0 : ℚ)) < 1 := by norm_num
    simp only [hmin]
    rw [if_pos hlt]
    have : t0 + (1 - 0) / (R : ℚ) - t0 = 1 / (R : ℚ) := by ring
    simp [this]

/-- Witness for C7 at `R = 2`, `t0 = 0`. -/
theorem c7_witness :
    1 ≤ 2 ∧
    1 / ((2 : ℕ) : ℚ) ≤
      ((RateLimiter.make ((2 : ℕ) : ℚ) 0).acquireRun 0 (2 + 1)).2 -
        ((RateLimiter.make ((2 : ℕ) : ℚ) 0).acquireRun 0 1).2 :=
  ⟨by norm_num, (c7_rate_limiter_deficit_and_burst 2 0 (by norm_num)).2⟩

/-
C6: subdomain sanitization.
-/

/-- A hyphen is not an alphanumeric subdomain character. -/
theorem hyphen_not_subdomainChar : isSubdomainChar (Char.ofNat 45) = false := by decide

/-- After a hyphen has been emitted, the collapse loop next emits an
alphanumeric character (or nothing). -/
theorem collapseGo_true_head (l : List Char) :
    ∀ x, (collapseGo true l).head? = some x → isSubdomainChar x = true := by
  induction l with
  | nil =>
    intro x hx
    simp [collapseGo] at hx
  | cons c rest ih =>
    intro x hx
    by_cases hc : isSubdomainChar c = true
    · rw [collapseGo, if_pos hc] at hx
      simp only [List.head?_cons, Option.some_inj] at hx
      rw [← hx]
      exact hc
    · rw [collapseGo, if_neg hc, if_pos rfl] at hx
      exact ih x hx

/-- The collapse loop never emits two adjacent hyphens. -/
theorem collapseGo_chain (l : List Char) : ∀ flag,
    List.Chain' (fun a b => ¬(a = Char.ofNat 45 ∧ b = Char.ofNat 45)) (collapseGo flag l) := by
  induction l with
  | nil =>
    intro flag
    simp [collapseGo]
  | cons c rest ih =>
    intro flag
    by_cases hc : isSubdomainChar c = true
    · rw [collapseGo, if_pos hc]
      refine List.chain'_cons'.mpr ⟨?_, ih false⟩
      intro y _ hy
      rw [hy.1, hyphen_not_subdomainChar] at hc
      exact Bool.false_ne_true hc
    · rw [collapseGo, if_neg hc]
      by_cases hflag : flag = true
      · rw [if_pos hflag]
        exact ih true
      · rw [if_neg hflag]
        refine List.chain'_cons'.mpr ⟨?_, ih true⟩
        intro y hy hxy
        have hsub := collapseGo_true_head rest y hy
        rw [hxy.2, hyphen_not_subdomainChar] at hsub
        exact Bool.false_ne_true hsub

/-- `collapseNonAlnum` never emits two adjacent hyphens. -/
theorem collapseNonAlnum_chain (l : List Char) :
    List.Chain' (fun a b => ¬(a = Char.ofNat 45 ∧ b = Char.ofNat 45)) (collapseNonAlnum l) :=
  collapseGo_chain l false

/-- Computation rule for `stripEdgeHyphens` on an empty list. -/
theorem stripEdgeHyphens_nil : stripEdgeHyphens [] = [] := rfl

/-- Computation rule for `stripEdgeHyphens` when the head is a hyphen. -/
theorem stripEdgeHyphens_cons_hyphen (c : Char) (t : List Char) (hc : (c == Char.ofNat 45) = true) :
    stripEdgeHyphens (c :: t) =
      (if t.getLast? == some (Char.ofNat 45) then t.dropLast else t) := by
  simp [stripEdgeHyphens, hc]

/-- Computation rule for `stripEdgeHyphens` when the head is not a hyphen. -/
theorem stripEdgeHyphens_cons_other (c : Char) (t : List Char) (hc : (c == Char.ofNat 45) = false) :
    stripEdgeHyphens (c :: t) =
      (if (c :: t).getLast? == some (Char.ofNat 45) then (c :: t).dropLast else c :: t) := by
  simp [stripEdgeHyphens, hc]

/-- Dropping a `==`-flagged trailing hyphen keeps the head hyphen-free. -/
theorem trailStrip_head (m : List Char) (hm : m.head? ≠ some (Char.ofNat 45)) :
    (if m.getLast? == some (Char.ofNat 45) then m.dropLast else m).head? ≠
      some (Char.ofNat 45) := by
  split
  · cases m with
    | nil => simp
    | cons a t =>
      cases t with
      | nil => simp
      | cons b t2 => simpa [List.dropLast] using hm
  · exact hm

/-- Dropping a `==`-flagged trailing hyphen leaves no trailing hyphen when the
list has no adjacent hyphens. -/
theorem trailStrip_getLast (m : List Char)
    (hm : List.Chain' (fun a b => ¬(a = Char.ofNat 45 ∧ b = Char.ofNat 45)) m) :
    (if m.getLast? == some (Char.ofNat 45) then m.dropLast else m).getLast? ≠
      some (Char.ofNat 45) := by
  by_cases hlast : (m.getLast? == some (Char.ofNat 45)) = true
  · rw [if_pos hlast]
    intro hbad
    have hmlast : m.getLast? = some (Char.ofNat 45) := by simpa using hlast
    rcases List.getLast?_eq_some_iff.mp hmlast with ⟨zs, rfl⟩
    rw [List.dropLast_concat] at hbad
    rcases List.getLast?_eq_some_iff.mp hbad with ⟨ys, rfl⟩
    have hinfix : [Char.ofNat 45, Char.ofNat 45] <:+: (ys ++ [Char.ofNat 45]) ++ [Char.ofNat 45] :=
      ⟨ys, [], by simp⟩
    have h2 := hm.infix hinfix
    rw [List.chain'_cons] at h2
    exact h2.1 ⟨rfl, rfl⟩
  · rw [if_neg hlast]
    intro hbad
    rw [hbad] at hlast
    simp at hlast

/-- The head of `stripEdgeHyphens l` is not a hyphen when `l` has no adjacent
hyphens. -/
theorem stripEdgeHyphens_head (l : List Char)
    (h : List.Chain' (fun a b => ¬(a = Char.ofNat 45 ∧ b = Char.ofNat 45)) l) :
    (stripEdgeHyphens l).head? ≠ some (Char.ofNat 45) := by
  cases l with
  | nil =>
    rw [stripEdgeHyphens_nil]
    simp
  | cons c t =>
    by_cases hc : (c == Char.ofNat 45) = true
    · rw [stripEdgeHyphens_cons_hyphen c t hc]
      apply trailStrip_head
      cases t with
      | nil => simp
      | cons b t2 =>
        intro hb
        simp only [List.head?_cons, Option.some_inj] at hb
        have hcb := (List.chain'_cons'.mp h).1 b (by simp)
        exact hcb ⟨by simpa using hc, hb⟩
    · rw [stripEdgeHyphens_cons_other c t (by simpa using hc)]
      apply trailStrip_head
      intro hb
      simp only [List.head?_cons, Option.some_inj] at hb
      rw [hb] at hc
      simp at hc

/-- The last character of `stripEdgeHyphens l` is not a hyphen when `l` has no
adjacent hyphens. -/
theorem stripEdgeHyphens_getLast (l : List Char)
    (h : List.Chain' (fun a b => ¬(a = Char.ofNat 45 ∧ b = Char.ofNat 45)) l) :
    (stripEdgeHyphens l).getLast? ≠ some (Char.ofNat 45) := by
  cases l with
  | nil =>
    rw [stripEdgeHyphens_nil]
    simp
  | cons c t =>
    by_cases hc : (c == Char.ofNat 45) = true
    · rw [stripEdgeHyphens_cons_hyphen c t hc]
      exact trailStrip_getLast t h.tail
    · rw [stripEdgeHyphens_cons_other c t (by simpa using hc)]
      exact trailStrip_getLast (c :: t) h

/-- Counterexample to C6 as stated: for a 51-character name whose sanitized
form is truncated by the 50-character cap right after a hyphen, the project
identifier's sanitized part DOES end with a hyphen (the edge-hyphen strip runs
before the length cap). -/
theorem c6_counterexample :
    (sanitizeSubdomain exLongName).toList.getLast? = some (Char.ofNat 45) := by
  decide

/-- C6 (amended): `createProject` derives the identifier
`<sanitized>-v<variation>`; the sanitized part never begins with a hyphen, and
it does not end with a hyphen whenever the hyphen-stripped form fits within
the 50-character cap (the counterexample shows the cap can re-expose a
trailing hyphen). -/
theorem c6_project_name_derivation :
    (∀ (name : String) (v : Nat),
      createProjectName name v = sanitizeSubdomain name ++ "-v" ++ toString v) ∧
    (∀ name : String, (sanitizeSubdomain name).toList.head? ≠ some (Char.ofNat 45)) ∧
    (∀ name : String,
      (stripEdgeHyphens (collapseNonAlnum (name.toList.map Char.toLower))).length ≤ 50 →
      (sanitizeSubdomain name).toList.getLast? ≠ some (Char.ofNat 45)) := by
  refine ⟨fun _ _ => rfl, ?_, ?_⟩
  · intro name
    show (String.mk _).toList.head? ≠ some (Char.ofNat 45)
    have hchain := collapseNonAlnum_chain (name.toList.map Char.toLower)
    have hhead := stripEdgeHyphens_head _ hchain
    cases hs : stripEdgeHyphens (collapseNonAlnum (name.toList.map Char.toLower)) with
    | nil => simp
    | cons a t =>
      rw [hs] at hhead
      simpa using hhead
  · intro name hlen
    have hchain := collapseNonAlnum_chain (name.toList.map Char.toLower)
    have hlast := stripEdgeHyphens_getLast _ hchain
    show (String.mk
      ((stripEdgeHyphens (collapseNonAlnum (name.toList.map Char.toLower))).take 50)).toList.getLast?
      ≠ some (Char.ofNat 45)
    rw [List.take_of_length_le hlen]
    exact hlast

/-- Witness for C6 (amended) at a short concrete name. -/
theorem c6_witness :
    (stripEdgeHyphens (collapseNonAlnum ((String.toList "Marcus Barbershop").map
        Char.toLower))).length ≤ 50 ∧
    (sanitizeSubdomain "Marcus Barbershop").toList.getLast? ≠ some (Char.ofNat 45) :=
  ⟨by decide, c6_project_name_derivation.2.2 "Marcus Barbershop" (by decide)⟩

/-
C8: AI response cleanup.
-/

/-- `firstIdxOf` over a character-mapped haystack finds exactly the longest
tail whose image starts with the pattern. -/
theorem firstIdxOf_eq_tails (f : Char → Char) (pat : List Char) : ∀ (hay : List Char),
    firstIdxOf (hay.map f) pat =
      (hay.tails.find? (fun t => pat.isPrefixOf (t.map f))).map
        (fun t => hay.length - t.length) := by
  intro hay
  induction hay with
  | nil =>
    rw [List.map_nil, firstIdxOf]
    simp only [List.tails]
    by_cases hp : pat.isPrefixOf ([] : List Char) = true
    · rw [if_pos hp]
      rw [List.find?_cons_of_pos _ (by simpa using hp)]
      simp
    · rw [if_neg hp]
      rw [List.find?_cons_of_neg _ (by simpa using hp)]
      simp
  | cons c t ih =>
    rw [List.map_cons, firstIdxOf, List.tails_cons]
    by_cases hp : pat.isPrefixOf (f c :: t.map f) = true
    · rw [if_pos hp]
      rw [List.find?_cons_of_pos _ (by simpa using hp)]
      simp
    · rw [if_neg hp]
      rw [List.find?_cons_of_neg _ (by simpa using hp)]
      rw [ih]
      cases hfind : t.tails.find? (fun u => pat.isPrefixOf (u.map f)) with
      | none => simp
      | some u =>
        have hm : u ∈ t.tails := List.mem_of_find?_eq_some hfind
        have hle : u.length ≤ t.length := ((List.mem_tails _ _).mp hm).length_le
        simp only [Option.map_some']
        congr 1
        simp only [List.length_cons]
        omega

/-- `lastIdxOf` over a character-mapped haystack finds exactly the shortest
tail whose image starts with the pattern. -/
theorem lastIdxOf_eq_tails (f : Char → Char) (pat : List Char) : ∀ (hay : List Char),
    lastIdxOf (hay.map f) pat =
      (hay.tails.reverse.find? (fun t => pat.isPrefixOf (t.map f))).map
        (fun t => hay.length - t.length) := by
  intro hay
  induction hay with
  | nil =>
    rw [List.map_nil, lastIdxOf]
    simp only [List.tails, List.reverse_singleton]
    by_cases hp : pat.isPrefixOf ([] : List Char) = true
    · rw [if_pos hp]
      rw [List.find?_cons_of_pos _ (by simpa using hp)]
      simp
    · rw [if_neg hp]
      rw [List.find?_cons_of_neg _ (by simpa using hp)]
      simp
  | cons c t ih =>
    rw [List.map_cons, lastIdxOf, List.tails_cons, List.reverse_cons, List.find?_append, ih]
    cases hfind : t.tails.reverse.find? (fun u => pat.isPrefixOf (u.map f)) with
    | none =>
      simp only [Option.map_none', Option.none_or]
      by_cases hp : pat.isPrefixOf (f c :: t.map f) = true
      · rw [List.find?_cons_of_pos _ (by simpa using hp)]
        rw [if_pos hp]
        simp
      · rw [List.find?_cons_of_neg _ (by simpa using hp)]
        rw [if_neg hp]
        simp
    | some u =>
      have hm : u ∈ t.tails := by
        have := List.mem_of_find?_eq_some hfind
        simpa using this
      have hle : u.length ≤ t.length := ((List.mem_tails _ _).mp hm).length_le
      simp only [Option.map_some', Option.or_some]
      congr 1
      simp only [List.length_cons]
      omega

/-- The doctype-truncation step of `cleanHtmlResponse` computes the
specification's drop-before-first-occurrence operation. -/
theorem cutDoctype_eq_spec (pat s : List Char) :
    (match firstIdxOf (lowerChars s) pat with
     | some i => if 0 < i then s.drop i else s
     | none => s) = specDropBeforeFirst pat s := by
  unfold specDropBeforeFirst
  simp only [lowerChars]
  rw [firstIdxOf_eq_tails Char.toLower pat s]
  cases hfind : s.tails.find? (fun t => pat.isPrefixOf (t.map Char.toLower)) with
  | none => simp
  | some u =>
    have hm : u ∈ s.tails := List.mem_of_find?_eq_some hfind
    have hle : u.length ≤ s.length := ((List.mem_tails _ _).mp hm).length_le
    simp only [Option.map_some']
    by_cases h0 : u.length = s.length
    · have hnot : ¬ 0 < s.length - u.length := by omega
      rw [if_neg hnot, if_pos (by simpa using h0)]
    · rw [if_pos (by omega), if_neg (by simpa using h0)]

/-- The closing-tag truncation step of `cleanHtmlResponse` computes the
specification's keep-through-last-occurrence operation. -/
theorem cutHtmlEnd_eq_spec (s : List Char) :
    (match lastIdxOf (lowerChars s) ("</html>".toList) with
     | some i => s.take (i + 7)
     | none => s) = specKeepThroughLast ("</html>".toList) s := by
  unfold specKeepThroughLast
  simp only [lowerChars]
  rw [lastIdxOf_eq_tails Char.toLower ("</html>".toList) s]
  cases hfind : s.tails.reverse.find? (fun t => ("</html>".toList).isPrefixOf
      (t.map Char.toLower)) with
  | none => simp
  | some u => simp

/-- C8: the provider-response cleanup of the AI client computes exactly the
specification's description — strip a leading and a trailing markdown fence,
remove everything before the first case-insensitive `<!DOCTYPE html>` when it
is not already at the start, and remove everything after the last
case-insensitive `</html>`. -/
theorem c8_clean_html_response_matches_spec (response : String) :
    cleanHtmlResponse response = cleanHtmlResponseSpec response := by
  unfold cleanHtmlResponse cleanHtmlResponseSpec specStripLeadFence specStripTrailFence
  simp only [cutDoctype_eq_spec, cutHtmlEnd_eq_spec]

/-
C5: the discovery filter.
-/

/-- Counterexample to C5 as stated: with a configured minimum rating of 4, an
operational candidate with no website and NO rating at all is kept by the
code (the JS truthiness guard `place.rating &&` skips the comparison), while
the claim's reading — "its rating is at or above the threshold" — rejects
it. -/
theorem c5_counterexample :
    keepCandidate cfgMinRating4 exPlaceNoRating = true ∧
    ¬ keepClaimed cfgMinRating4 exPlaceNoRating := by
  refine ⟨by decide, ?_⟩
  intro h
  rcases h.2.2 4 rfl with ⟨r, hr, _⟩
  simp [exPlaceNoRating] at hr

/-- C5 (amended): a detail-fetched candidate passes the discovery filter
exactly when its website field is absent or empty/whitespace-only, AND (when
`onlyOperational` is configured) its status is OPERATIONAL, AND (when a
nonzero minimum rating is configured and the candidate reports a nonzero
rating) that rating is at or above the threshold — a candidate with no (or a
zero) reported rating passes the rating gate. -/
theorem c5_filter_characterization (cfg : DiscoveryConfig) (p : Place) :
    keepCandidate cfg p = true ↔ keepAmendedProp cfg p := by
  unfold keepCandidate keepAmendedProp
  by_cases hop : (cfg.onlyOperational && !(p.business_status == some "OPERATIONAL")) = true
  · rw [if_pos hop]
    simp only [Bool.and_eq_true, Bool.not_eq_true'] at hop
    constructor
    · intro h
      exact absurd h (by simp)
    · intro h
      exfalso
      have hst := h.2.1 hop.1
      rw [hst] at hop
      simp at hop
  · rw [if_neg hop]
    by_cases hrat : (ratTruthy cfg.minRating && ratTruthy p.rating &&
        decide (p.rating.getD 0 < cfg.minRating.getD 0)) = true
    · rw [if_pos hrat]
      constructor
      · intro h
        exact absurd h (by simp)
      · intro h
        exfalso
        cases hm : cfg.minRating with
        | none =>
          rw [hm] at hrat
          simp [ratTruthy] at hrat
        | some θ =>
          cases hpr : p.rating with
          | none =>
            rw [hm, hpr] at hrat
            simp [ratTruthy] at hrat
          | some r =>
            rw [hm, hpr] at hrat
            simp only [ratTruthy, Bool.and_eq_true, bne_iff_ne, ne_eq, decide_eq_true_eq,
              Option.getD_some] at hrat
            have hle := h.2.2 θ r hm hrat.1.1 hpr hrat.1.2
            linarith [hrat.2]
    · rw [if_neg hrat]
      constructor
      · intro h
        refine ⟨?_, ?_, ?_⟩
        · unfold placeHasWebsite at h
          cases hw : p.website with
          | none => exact Or.inl rfl
          | some w =>
            right
            intro w2 hw2
            injection hw2 with hww
            subst hww
            simp only [hw, Bool.not_eq_true', decide_eq_false_iff_not, not_lt,
              Nat.le_zero] at h
            exact h
        · intro hOp
          by_cases hst : (p.business_status == some "OPERATIONAL") = true
          · simpa using hst
          · exfalso
            apply hop
            rw [hOp]
            simp [hst]
        · intro θ r hm hθ hr hrne
          by_contra hlt
          apply hrat
          rw [hm, hr]
          simp only [ratTruthy, Bool.and_eq_true, bne_iff_ne, ne_eq, decide_eq_true_eq,
            Option.getD_some]
          exact ⟨⟨hθ, hrne⟩, lt_of_not_le hlt⟩
      · intro h
        unfold placeHasWebsite
        cases hw : p.website with
        | none => simp
        | some w =>
          rcases h.1 with hnone | hall
          · rw [hw] at hnone
            cases hnone
          · have hlen := hall w hw
            simp only [Bool.not_eq_true', decide_eq_false_iff_not, not_lt, Nat.le_zero]
            exact hlen

/-- Witness for C5 (amended) on a kept candidate. -/
theorem c5_witness :
    keepCandidate cfgDefault exPlaceP = true ∧ keepAmendedProp cfgDefault exPlaceP :=
  ⟨by decide, (c5_filter_characterization cfgDefault exPlaceP).mp (by decide)⟩

/-
C4: batch insert.
-/

/-- The `INSERT OR IGNORE` batch loop is exactly the fold of the single-row
`insertBusiness`, skipping the rows whose insert fails. -/
theorem insertBusinesses_eq_insertLoop (db : DB) (batch : List BusinessInsert) :
    insertBusinesses db batch =
      batch.foldl
        (fun acc d =>
          match insertBusiness acc.1 d with
          | .ok r => (r.1, acc.2 + 1)
          | .error _ => acc)
        (db, 0) := by
  unfold insertBusinesses
  congr 1
  funext acc d
  unfold insertBusiness
  by_cases hv : violatesBusinessUnique acc.1.businesses
      (resolveBusinessInsert d (d.id.getD acc.1.tick) acc.1.tick) = true
  · simp [hv]
  · simp [hv]

/-- `insertBusinesses` returns exactly the number of rows it added. -/
theorem insertBusinesses_count (db : DB) (batch : List BusinessInsert) :
    (insertBusinesses db batch).1.businesses.length =
      db.businesses.length + (insertBusinesses db batch).2 := by
  unfold insertBusinesses
  suffices h : ∀ (batch : List BusinessInsert) (dbx : DB) (n : Nat),
      (batch.foldl
        (fun acc d =>
          let b := resolveBusinessInsert d (d.id.getD acc.1.tick) acc.1.tick
          if violatesBusinessUnique acc.1.businesses b then acc
          else ({ acc.1 with businesses := acc.1.businesses ++ [b], tick := acc.1.tick + 1 },
                acc.2 + 1))
        (dbx, n)).1.businesses.length + n =
      dbx.businesses.length +
        (batch.foldl
          (fun acc d =>
            let b := resolveBusinessInsert d (d.id.getD acc.1.tick) acc.1.tick
            if violatesBusinessUnique acc.1.businesses b then acc
            else ({ acc.1 with businesses := acc.1.businesses ++ [b], tick := acc.1.tick + 1 },
                  acc.2 + 1))
          (dbx, n)).2 by
    have h2 := h batch db 0
    omega
  intro batch
  induction batch with
  | nil =>
    intro dbx n
    simp
  | cons d rest ih =>
    intro dbx n
    simp only [List.foldl_cons]
    by_cases hv : violatesBusinessUnique dbx.businesses
        (resolveBusinessInsert d (d.id.getD dbx.tick) dbx.tick) = true
    · simp only [hv, if_true]
      exact ih dbx n
    · simp only [hv, Bool.false_eq_true, if_false]
      have h3 := ih ({ dbx with
          businesses := dbx.businesses ++
            [resolveBusinessInsert d (d.id.getD dbx.tick) dbx.tick]
          tick := dbx.tick + 1 }) (n + 1)
      simp only [List.length_append, List.length_cons, List.length_nil] at h3 ⊢
      omega

/-- C4: `insertBusinesses(batch)` skips each element whose insert would
violate a uniqueness constraint (exactly the elements on which
`insertBusiness` would throw `DuplicateRecord`) without aborting the batch,
inserts all remaining elements, and returns exactly the number of rows
actually inserted. -/
theorem c4_insert_businesses_batch (db : DB) (batch : List BusinessInsert) :
    insertBusinesses db batch =
      batch.foldl
        (fun acc d =>
          match insertBusiness acc.1 d with
          | .ok r => (r.1, acc.2 + 1)
          | .error _ => acc)
        (db, 0) ∧
    (insertBusinesses db batch).1.businesses.length =
      db.businesses.length + (insertBusinesses db batch).2 :=
  ⟨insertBusinesses_eq_insertLoop db batch, insertBusinesses_count db batch⟩

/-
C10: the status side effect of `insertWebsite`.
-/

/-- C10: every successful `insertWebsite` call sets the owning business's
status to `website_generated`, unconditionally — regardless of the prior
status, including statuses later in the lifecycle. -/
theorem c10_insert_website_overwrites_status (db : DB) (d : WebsiteInsert) (db2 : DB)
    (w : GeneratedWebsite) (h : insertWebsite db d = .ok (db2, w)) :
    ∀ b ∈ db2.businesses, b.id = d.business_id → b.status = .website_generated := by
  unfold insertWebsite at h
  by_cases h1 : (db.websites.any (fun w2 => w2.id == d.id.getD db.tick)) = true
  · rw [if_pos h1] at h
    exact Except.noConfusion h
  · rw [if_neg h1] at h
    by_cases h2 : (!(db.businesses.any (fun b => b.id == d.business_id))) = true
    · rw [if_pos h2] at h
      exact Except.noConfusion h
    · rw [if_neg h2] at h
      simp only [Except.ok.injEq, Prod.mk.injEq] at h
      obtain ⟨hdb2, _⟩ := h
      subst hdb2
      unfold updateBusinessStatus updateBusiness
      have hany : db.businesses.any (fun b => b.id == d.business_id) = true := by
        simpa using h2
      rw [if_pos hany]
      intro b hb hid
      rcases List.mem_map.mp hb with ⟨b0, _, rfl⟩
      by_cases hb0id : (b0.id == d.business_id) = true
      · rw [if_pos hb0id]
        simp [applyBusinessUpdate]
      · rw [if_neg hb0id] at hid ⊢
        rw [hid] at hb0id
        simp at hb0id

/-- Witness for C10: a business already at status `sold` is overwritten back
to `website_generated` by a later `insertWebsite`. -/
theorem c10_witness :
    statusOf exDBSold 0 = some .sold ∧
    ∀ b ∈ (exceptDB (insertWebsite exDBSold exWebIns2) exDBSold).businesses,
      b.id = 0 → b.status = .website_generated := by
  refine ⟨by decide, ?_⟩
  intro b hb hid
  cases hres : insertWebsite exDBSold exWebIns2 with
  | error e =>
    cases e
    exact absurd hres (by decide)
  | ok r =>
    rw [hres] at hb
    exact c10_insert_website_overwrites_status exDBSold exWebIns2 r.1 r.2
      (by rw [hres]) b hb hid

/-
C9: end-to-end mock discovery scenario.
-/

/-- C9: mock-mode discovery for one area and category with
`maxResultsPerSearch = 5` finds exactly 5 candidates; the detail fetch
reports a website exactly for suffix indices with `i % 5 < 3`; exactly the
two candidates failing that rule (indices 3 and 4) are persisted; and the
persisted count equals the run's `withoutWebsite` count. -/
theorem c9_mock_discovery_scenario :
    (∀ cat : BusinessCategory,
      (discoverMockRun emptyDB mockCfg5 areaHS cat).2 =
        { found := 5, withoutWebsite := 2, saved := 2, alreadyExists := 0, aborted := false } ∧
      ((discoverMockRun emptyDB mockCfg5 areaHS cat).1.businesses.map (fun b => b.source_id)) =
        [some (mockPlaceId areaHS cat 3), some (mockPlaceId areaHS cat 4)]) ∧
    (∀ (cat : BusinessCategory) (i : Nat), i < 5 →
      (((mockGetPlaceDetails (mockPlaceId areaHS cat i)).bind (fun p => p.website)).isSome =
          true ↔ i % 5 < 3)) := by
  constructor
  · intro cat
    cases cat <;> exact ⟨by decide, by decide⟩
  · intro cat i hi
    interval_cases i <;> cases cat <;> decide

/-- Witness for C9 at the restaurant category and suffix index 3. -/
theorem c9_witness :
    3 < 5 ∧
    (((mockGetPlaceDetails (mockPlaceId areaHS .restaurant 3)).bind
        (fun p => p.website)).isSome = true ↔ 3 % 5 < 3) :=
  ⟨by decide, c9_mock_discovery_scenario.2 .restaurant 3 (by decide)⟩

/-
Shape lemmas for the store operations.
-/

/-- Elimination for a successful `insertBusiness`. -/
theorem insertBusiness_ok_elim (db : DB) (d : BusinessInsert) (db2 : DB) (b : Business)
    (h : insertBusiness db d = .ok (db2, b)) :
    b = resolveBusinessInsert d (d.id.getD db.tick) db.tick ∧
    violatesBusinessUnique db.businesses b = false ∧
    db2 = { db with businesses := db.businesses ++ [b], tick := db.tick + 1 } := by
  unfold insertBusiness at h
  by_cases hv : violatesBusinessUnique db.businesses
      (resolveBusinessInsert d (d.id.getD db.tick) db.tick) = true
  · rw [if_pos hv] at h
    exact Except.noConfusion h
  · rw [if_neg hv] at h
    simp only [Except.ok.injEq, Prod.mk.injEq] at h
    obtain ⟨h1, h2⟩ := h
    subst h2
    exact ⟨rfl, by simpa using hv, h1.symm⟩

/-- What a passing uniqueness check says about the existing rows. -/
theorem violates_false_elim (rows : List Business) (b : Business)
    (h : violatesBusinessUnique rows b = false) :
    (∀ r ∈ rows, r.id ≠ b.id) ∧
    (∀ r ∈ rows, ∀ p, b.google_place_id = some p → r.google_place_id ≠ some p) := by
  unfold violatesBusinessUnique at h
  simp only [Bool.or_eq_false_iff] at h
  obtain ⟨⟨hid, _⟩, hgp⟩ := h
  constructor
  · intro r hr heq
    exact List.any_eq_false.mp hid r hr (by simp [heq])
  · intro r hr p hp heq
    rw [hp] at hgp
    exact List.any_eq_false.mp hgp r hr (by simp [heq])

/-- `updateBusiness` leaves the websites table untouched. -/
theorem updateBusiness_websites (db : DB) (id : Nat) (u : BusinessUpdate) :
    (updateBusiness db id u).1.websites = db.websites := by
  unfold updateBusiness
  split <;> rfl

/-- `updateBusiness` leaves the outreach table untouched. -/
theorem updateBusiness_outreach (db : DB) (id : Nat) (u : BusinessUpdate) :
    (updateBusiness db id u).1.outreach = db.outreach := by
  unfold updateBusiness
  split <;> rfl

/-- The businesses table after `updateBusiness`, matched-row case. -/
theorem updateBusiness_businesses_pos (db : DB) (id : Nat) (u : BusinessUpdate)
    (hany : (db.businesses.any (fun b => b.id == id)) = true) :
    (updateBusiness db id u).1.businesses =
      db.businesses.map (fun b => if b.id == id then applyBusinessUpdate b u db.tick else b) := by
  unfold updateBusiness
  rw [if_pos hany]

/-- The businesses table after `updateBusiness`, no-row case. -/
theorem updateBusiness_businesses_neg (db : DB) (id : Nat) (u : BusinessUpdate)
    (hany : ¬ (db.businesses.any (fun b => b.id == id)) = true) :
    (updateBusiness db id u).1.businesses = db.businesses := by
  unfold updateBusiness
  rw [if_neg hany]

/-- `applyBusinessUpdate` never touches the primary key. -/
theorem applyBusinessUpdate_id (b : Business) (u : BusinessUpdate) (now : Nat) :
    (applyBusinessUpdate b u now).id = b.id := rfl

/-- `applyBusinessUpdate` never touches `google_place_id` (the
`BusinessUpdate` payload type has no such field). -/
theorem applyBusinessUpdate_gpid (b : Business) (u : BusinessUpdate) (now : Nat) :
    (applyBusinessUpdate b u now).google_place_id = b.google_place_id := rfl

/-- Elimination for a successful `insertWebsite`. -/
theorem insertWebsite_ok_elim (db : DB) (d : WebsiteInsert) (db2 : DB) (w : GeneratedWebsite)
    (h : insertWebsite db d = .ok (db2, w)) :
    ∃ wr : GeneratedWebsite,
      wr.id = d.id.getD db.tick ∧ wr.business_id = d.business_id ∧
      wr.preview_url = d.preview_url ∧ wr.deployed_at = none ∧
      (db.websites.any (fun x => x.id == wr.id)) = false ∧
      (db.businesses.any (fun b => b.id == d.business_id)) = true ∧
      db2.websites = db.websites ++ [wr] ∧
      db2.outreach = db.outreach ∧
      db2.businesses = db.businesses.map
        (fun b => if b.id == d.business_id then
          applyBusinessUpdate b { status := some .website_generated } (db.tick + 1) else b) := by
  unfold insertWebsite at h
  by_cases h1 : (db.websites.any (fun w2 => w2.id == d.id.getD db.tick)) = true
  · rw [if_pos h1] at h
    exact Except.noConfusion h
  · rw [if_neg h1] at h
    by_cases h2 : (!(db.businesses.any (fun b => b.id == d.business_id))) = true
    · rw [if_pos h2] at h
      exact Except.noConfusion h
    · rw [if_neg h2] at h
      simp only [Except.ok.injEq, Prod.mk.injEq] at h
      obtain ⟨hdb2, _⟩ := h
      subst hdb2
      have hany : db.businesses.any (fun b => b.id == d.business_id) = true := by
        simpa using h2
      refine ⟨{ id := d.id.getD db.tick
                business_id := d.business_id
                template_name := d.template_name
                variation_number := d.variation_number.getD 1
                html_content := d.html_content
                preview_url := d.preview_url
                deployed_at := none
                created_at := db.tick },
        rfl, rfl, rfl, rfl, by simpa using h1, hany, ?_, ?_, ?_⟩
      · exact updateBusiness_websites _ _ _
      · exact updateBusiness_outreach _ _ _
      · exact updateBusiness_businesses_pos _ d.business_id _ hany

/-- `updateWebsite` leaves the businesses table untouched. -/
theorem updateWebsite_businesses (db : DB) (id : Nat) (u : WebsiteUpdate) :
    (updateWebsite db id u).1.businesses = db.businesses := by
  unfold updateWebsite
  split
  · rfl
  · split <;> rfl

/-- `updateWebsite` leaves the outreach table untouched. -/
theorem updateWebsite_outreach (db : DB) (id : Nat) (u : WebsiteUpdate) :
    (updateWebsite db id u).1.outreach = db.outreach := by
  unfold updateWebsite
  split
  · rfl
  · split <;> rfl

/-- The websites table after `updateWebsite` is either untouched or a map of
the per-row update over the matched id. -/
theorem updateWebsite_websites_cases (db : DB) (id : Nat) (u : WebsiteUpdate) :
    (updateWebsite db id u).1.websites = db.websites ∨
    (updateWebsite db id u).1.websites =
      db.websites.map (fun w => if w.id == id then applyWebsiteUpdate w u else w) := by
  unfold updateWebsite
  split
  · exact Or.inl rfl
  · split
    · exact Or.inr rfl
    · exact Or.inl rfl

/-- `applyWebsiteUpdate` never touches the primary key. -/
theorem applyWebsiteUpdate_id (w : GeneratedWebsite) (u : WebsiteUpdate) :
    (applyWebsiteUpdate w u).id = w.id := rfl

/-- `applyWebsiteUpdate` never touches the owning business id. -/
theorem applyWebsiteUpdate_business_id (w : GeneratedWebsite) (u : WebsiteUpdate) :
    (applyWebsiteUpdate w u).business_id = w.business_id := rfl

/-- Elimination for a successful `logOutreach`. -/
theorem logOutreach_ok_elim (db : DB) (d : OutreachInsert) (db2 : DB) (o : OutreachLog)
    (h : logOutreach db d = .ok (db2, o)) :
    db2.websites = db.websites ∧
    db2.businesses = db.businesses.map
      (fun b => if b.id == d.business_id then
        applyBusinessUpdate b { status := some .contacted } (db.tick + 1) else b) := by
  unfold logOutreach at h
  by_cases h1 : (db.outreach.any (fun o2 => o2.id == d.id.getD db.tick)) = true
  · rw [if_pos h1] at h
    exact Except.noConfusion h
  · rw [if_neg h1] at h
    by_cases h2 : (!(db.businesses.any (fun b => b.id == d.business_id))) = true
    · rw [if_pos h2] at h
      exact Except.noConfusion h
    · rw [if_neg h2] at h
      simp only [Except.ok.injEq, Prod.mk.injEq] at h
      obtain ⟨hdb2, _⟩ := h
      subst hdb2
      have hany : db.businesses.any (fun b => b.id == d.business_id) = true := by
        simpa using h2
      exact ⟨updateBusiness_websites _ _ _, updateBusiness_businesses_pos _ d.business_id _ hany⟩

/-- `deleteBusiness` either leaves the store alone or filters all three
tables. -/
theorem deleteBusiness_shape (db : DB) (id : Nat) :
    (deleteBusiness db id).1 = db ∨
    ((deleteBusiness db id).1.businesses = db.businesses.filter (fun b => b.id != id) ∧
     (deleteBusiness db id).1.websites = db.websites.filter (fun w => w.business_id != id) ∧
     (deleteBusiness db id).1.outreach = db.outreach.filter (fun o => o.business_id != id)) := by
  unfold deleteBusiness
  split
  · exact Or.inr ⟨rfl, rfl, rfl⟩
  · exact Or.inl rfl

/-- `deleteWebsite` either leaves the store alone or filters the websites
table. -/
theorem deleteWebsite_shape (db : DB) (id : Nat) :
    (deleteWebsite db id).1 = db ∨
    ((deleteWebsite db id).1.businesses = db.businesses ∧
     (deleteWebsite db id).1.websites = db.websites.filter (fun w => w.id != id) ∧
     (deleteWebsite db id).1.outreach = db.outreach) := by
  unfold deleteWebsite
  split
  · exact Or.inr ⟨rfl, rfl, rfl⟩
  · exact Or.inl rfl

/-- `updateOutreachResponse` never touches the businesses or websites
tables. -/
theorem updateOutreachResponse_shape (db : DB) (id : Nat) (r : String) (n : Option String) :
    (updateOutreachResponse db id r n).1.businesses = db.businesses ∧
    (updateOutreachResponse db id r n).1.websites = db.websites := by
  unfold updateOutreachResponse
  split <;> exact ⟨rfl, rfl⟩

/-
Generic map-preservation helpers.
-/

/-- Mapping an id-preserving function over rows keeps the id projection. -/
theorem map_ids_of_preserve (l : List Business) (f : Business → Business)
    (hf : ∀ b, (f b).id = b.id) :
    (l.map f).map (fun b => b.id) = l.map (fun b => b.id) := by
  rw [List.map_map, show ((fun b : Business => b.id) ∘ f) = (fun b : Business => b.id) from
    funext hf]

/-- Mapping a `google_place_id`-preserving function over rows keeps the
`google_place_id` projection. -/
theorem filterMap_gpid_of_preserve (l : List Business) (f : Business → Business)
    (hf : ∀ b, (f b).google_place_id = b.google_place_id) :
    (l.map f).filterMap (fun b => b.google_place_id) =
      l.filterMap (fun b => b.google_place_id) := by
  rw [List.filterMap_map, show ((fun b : Business => b.google_place_id) ∘ f) =
    (fun b : Business => b.google_place_id) from funext hf]

/-- Mapping an id-preserving function over website rows keeps the id
projection. -/
theorem map_wids_of_preserve (l : List GeneratedWebsite) (f : GeneratedWebsite → GeneratedWebsite)
    (hf : ∀ w, (f w).id = w.id) :
    (l.map f).map (fun w => w.id) = l.map (fun w => w.id) := by
  rw [List.map_map, show ((fun w : GeneratedWebsite => w.id) ∘ f) =
    (fun w : GeneratedWebsite => w.id) from funext hf]

/-- An id witness survives an id-preserving map. -/
theorem exists_id_map (l : List Business) (f : Business → Business)
    (hf : ∀ b, (f b).id = b.id) (x : Nat) (h : ∃ b ∈ l, b.id = x) :
    ∃ b ∈ l.map f, b.id = x := by
  obtain ⟨b, hb, hx⟩ := h
  exact ⟨f b, List.mem_map_of_mem f hb, by rw [hf b, hx]⟩

/-- The per-row function of a status update preserves ids. -/
theorem updFun_id (id : Nat) (u : BusinessUpdate) (tick : Nat) :
    ∀ b : Business, ((fun b => if b.id == id then applyBusinessUpdate b u tick else b) b).id =
      b.id := by
  intro b
  by_cases h : (b.id == id) = true
  · simp [h, applyBusinessUpdate]
  · simp [h]

/-- The per-row function of a status update preserves `google_place_id`. -/
theorem updFun_gpid (id : Nat) (u : BusinessUpdate) (tick : Nat) :
    ∀ b : Business,
      ((fun b => if b.id == id then applyBusinessUpdate b u tick else b) b).google_place_id =
        b.google_place_id := by
  intro b
  by_cases h : (b.id == id) = true
  · simp [h, applyBusinessUpdate]
  · simp [h]

/-- The per-row function of a website update preserves ids. -/
theorem updWFun_id (id : Nat) (u : WebsiteUpdate) :
    ∀ w : GeneratedWebsite,
      ((fun w => if w.id == id then applyWebsiteUpdate w u else w) w).id = w.id := by
  intro w
  by_cases h : (w.id == id) = true
  · simp [h, applyWebsiteUpdate]
  · simp [h]

/-
StoreInv preservation, one lemma per mutating operation.
-/

/-- A fresh database satisfies the structural invariant bundle. -/
theorem storeInv_empty : StoreInv emptyDB := by
  refine ⟨?_, ?_, ?_, ?_⟩ <;>
    simp [businessIdsNodup, websiteIdsNodup, googlePlaceIdsUnique, ownersExist, emptyDB]

/-- `insertBusiness` preserves the structural invariant bundle. -/
theorem insertBusiness_preserves_storeInv (db : DB) (d : BusinessInsert) (db2 : DB)
    (b : Business) (h : insertBusiness db d = .ok (db2, b)) (hinv : StoreInv db) :
    StoreInv db2 := by
  obtain ⟨_, hviol, hdb2⟩ := insertBusiness_ok_elim db d db2 b h
  obtain ⟨hid, hgp⟩ := violates_false_elim _ _ hviol
  obtain ⟨hbN, hwN, hgU, hOE⟩ := hinv
  subst hdb2
  refine ⟨?_, hwN, ?_, ?_⟩
  · unfold businessIdsNodup at hbN ⊢
    simp only [List.map_append, List.map_cons, List.map_nil]
    rw [List.nodup_append]
    refine ⟨hbN, List.nodup_singleton _, ?_⟩
    intro x hx hmem
    simp only [List.mem_singleton] at hmem
    subst hmem
    rcases List.mem_map.mp hx with ⟨r, hr, hrx⟩
    exact hid r hr hrx
  · unfold googlePlaceIdsUnique at hgU ⊢
    rw [List.filterMap_append]
    cases hbgp : b.google_place_id with
    | none =>
      simpa [hbgp] using hgU
    | some p =>
      rw [List.nodup_append]
      refine ⟨hgU, by simp [hbgp], ?_⟩
      intro x hx hmem
      simp only [hbgp, List.filterMap_cons, List.filterMap_nil] at hmem
      simp only [List.mem_singleton] at hmem
      subst hmem
      rcases List.mem_filterMap.mp hx with ⟨r, hr, hrx⟩
      exact hgp r hr x hbgp hrx
  · unfold ownersExist at hOE ⊢
    intro w hw
    obtain ⟨bb, hbb, hbbid⟩ := hOE w hw
    exact ⟨bb, List.mem_append_left _ hbb, hbbid⟩

/-- `updateBusiness` preserves the structural invariant bundle. -/
theorem updateBusiness_preserves_storeInv (db : DB) (id : Nat) (u : BusinessUpdate)
    (hinv : StoreInv db) : StoreInv (updateBusiness db id u).1 := by
  obtain ⟨hbN, hwN, hgU, hOE⟩ := hinv
  by_cases hany : (db.businesses.any (fun b => b.id == id)) = true
  · have hb := updateBusiness_businesses_pos db id u hany
    have hw := updateBusiness_websites db id u
    refine ⟨?_, ?_, ?_, ?_⟩
    · unfold businessIdsNodup at hbN ⊢
      rw [hb, map_ids_of_preserve _ _ (updFun_id id u db.tick)]
      exact hbN
    · unfold websiteIdsNodup at hwN ⊢
      rw [hw]
      exact hwN
    · unfold googlePlaceIdsUnique at hgU ⊢
      rw [hb, filterMap_gpid_of_preserve _ _ (updFun_gpid id u db.tick)]
      exact hgU
    · unfold ownersExist at hOE ⊢
      intro w hwmem
      rw [hw] at hwmem
      rw [hb]
      exact exists_id_map _ _ (updFun_id id u db.tick) _ (hOE w hwmem)
  · have hb := updateBusiness_businesses_neg db id u hany
    have hw := updateBusiness_websites db id u
    refine ⟨?_, ?_, ?_, ?_⟩
    · unfold businessIdsNodup at hbN ⊢
      rw [hb]
      exact hbN
    · unfold websiteIdsNodup at hwN ⊢
      rw [hw]
      exact hwN
    · unfold googlePlaceIdsUnique at hgU ⊢
      rw [hb]
      exact hgU
    · unfold ownersExist at hOE ⊢
      intro w hwmem
      rw [hw] at hwmem
      rw [hb]
      exact hOE w hwmem

/-- The per-row function of a website update preserves the owning business
id. -/
theorem updWFun_business_id (id : Nat) (u : WebsiteUpdate) :
    ∀ w : GeneratedWebsite,
      ((fun w => if w.id == id then applyWebsiteUpdate w u else w) w).business_id =
        w.business_id := by
  intro w
  by_cases h : (w.id == id) = true
  · simp [h, applyWebsiteUpdate]
  · simp [h]

/-- `insertWebsite` preserves the structural invariant bundle. -/
theorem insertWebsite_preserves_storeInv (db : DB) (d : WebsiteInsert) (db2 : DB)
    (w : GeneratedWebsite) (h : insertWebsite db d = .ok (db2, w)) (hinv : StoreInv db) :
    StoreInv db2 := by
  obtain ⟨wr, _, hwbid, _, _, hPK, hFK, hws, _, hbs⟩ := insertWebsite_ok_elim db d db2 w h
  obtain ⟨hbN, hwN, hgU, hOE⟩ := hinv
  refine ⟨?_, ?_, ?_, ?_⟩
  · unfold businessIdsNodup at hbN ⊢
    rw [hbs, map_ids_of_preserve _ _ (updFun_id d.business_id _ (db.tick + 1))]
    exact hbN
  · unfold websiteIdsNodup at hwN ⊢
    rw [hws]
    simp only [List.map_append, List.map_cons, List.map_nil]
    rw [List.nodup_append]
    refine ⟨hwN, List.nodup_singleton _, ?_⟩
    intro x hx hmem
    simp only [List.mem_singleton] at hmem
    subst hmem
    rcases List.mem_map.mp hx with ⟨r, hr, hrx⟩
    have := List.any_eq_false.mp hPK r hr
    simp only [beq_iff_eq] at this
    exact this (by rw [← hrx])
  · unfold googlePlaceIdsUnique at hgU ⊢
    rw [hbs, filterMap_gpid_of_preserve _ _ (updFun_gpid d.business_id _ (db.tick + 1))]
    exact hgU
  · unfold ownersExist at hOE ⊢
    intro w2 hw2
    rw [hws] at hw2
    rw [hbs]
    rcases List.mem_append.mp hw2 with hold | hnew
    · exact exists_id_map _ _ (updFun_id d.business_id _ (db.tick + 1)) _ (hOE w2 hold)
    · simp only [List.mem_singleton] at hnew
      subst hnew
      rcases List.any_eq_true.mp hFK with ⟨b, hb, hbid⟩
      simp only [beq_iff_eq] at hbid
      refine exists_id_map _ _ (updFun_id d.business_id _ (db.tick + 1)) _ ⟨b, hb, ?_⟩
      rw [hbid, hwbid]

/-- `updateWebsite` preserves the structural invariant bundle. -/
theorem updateWebsite_preserves_storeInv (db : DB) (id : Nat) (u : WebsiteUpdate)
    (hinv : StoreInv db) : StoreInv (updateWebsite db id u).1 := by
  obtain ⟨hbN, hwN, hgU, hOE⟩ := hinv
  have hb := updateWebsite_businesses db id u
  refine ⟨?_, ?_, ?_, ?_⟩
  · unfold businessIdsNodup at hbN ⊢
    rw [hb]
    exact hbN
  · unfold websiteIdsNodup at hwN ⊢
    rcases updateWebsite_websites_cases db id u with hw | hw
    · rw [hw]
      exact hwN
    · rw [hw, map_wids_of_preserve _ _ (updWFun_id id u)]
      exact hwN
  · unfold googlePlaceIdsUnique at hgU ⊢
    rw [hb]
    exact hgU
  · unfold ownersExist at hOE ⊢
    intro w hw2
    rw [hb]
    rcases updateWebsite_websites_cases db id u with hw | hw
    · rw [hw] at hw2
      exact hOE w hw2
    · rw [hw] at hw2
      rcases List.mem_map.mp hw2 with ⟨w0, hw0, hfw⟩
      obtain ⟨bb, hbb, hbid⟩ := hOE w0 hw0
      refine ⟨bb, hbb, ?_⟩
      have hb2 : w.business_id = w0.business_id := by
        rw [← hfw]
        by_cases hc : (w0.id == id) = true
        · simp [hc, applyWebsiteUpdate]
        · simp [hc]
      rw [hbid, hb2]

/-- `markWebsiteDeployed` preserves the structural invariant bundle. -/
theorem markWebsiteDeployed_preserves_storeInv (db : DB) (id : Nat) (url : String)
    (hinv : StoreInv db) : StoreInv (markWebsiteDeployed db id url).1 := by
  have h1 : StoreInv (updateWebsite db id
      { preview_url := some (some url), deployed_at := some (some db.tick) }).1 :=
    updateWebsite_preserves_storeInv db id _ hinv
  cases hp : (updateWebsite db id
      { preview_url := some (some url), deployed_at := some (some db.tick) }).2 with
  | none =>
    simpa [markWebsiteDeployed, updateBusinessStatus, hp] using h1
  | some w =>
    have h2 := updateBusiness_preserves_storeInv
      (updateWebsite db id
        { preview_url := some (some url), deployed_at := some (some db.tick) }).1
      w.business_id { status := some .deployed } h1
    simpa [markWebsiteDeployed, updateBusinessStatus, hp] using h2

/-- `deleteBusiness` preserves the structural invariant bundle. -/
theorem deleteBusiness_preserves_storeInv (db : DB) (id : Nat) (hinv : StoreInv db) :
    StoreInv (deleteBusiness db id).1 := by
  obtain ⟨hbN, hwN, hgU, hOE⟩ := hinv
  rcases deleteBusiness_shape db id with h | ⟨hb, hw, _⟩
  · rw [h]
    exact ⟨hbN, hwN, hgU, hOE⟩
  · refine ⟨?_, ?_, ?_, ?_⟩
    · unfold businessIdsNodup at hbN ⊢
      rw [hb]
      exact hbN.sublist ((List.filter_sublist _).map _)
    · unfold websiteIdsNodup at hwN ⊢
      rw [hw]
      exact hwN.sublist ((List.filter_sublist _).map _)
    · unfold googlePlaceIdsUnique at hgU ⊢
      rw [hb]
      exact hgU.sublist ((List.filter_sublist _).filterMap _)
    · unfold ownersExist at hOE ⊢
      intro w hw2
      rw [hw] at hw2
      obtain ⟨hwmem, hpred⟩ := List.mem_filter.mp hw2
      obtain ⟨bb, hbb, hbid⟩ := hOE w hwmem
      refine ⟨bb, ?_, hbid⟩
      rw [hb]
      refine List.mem_filter.mpr ⟨hbb, ?_⟩
      rw [bne_iff_ne, hbid]
      exact bne_iff_ne.mp hpred

/-- `deleteWebsite` preserves the structural invariant bundle. -/
theorem deleteWebsite_preserves_storeInv (db : DB) (id : Nat) (hinv : StoreInv db) :
    StoreInv (deleteWebsite db id).1 := by
  obtain ⟨hbN, hwN, hgU, hOE⟩ := hinv
  rcases deleteWebsite_shape db id with h | ⟨hb, hw, _⟩
  · rw [h]
    exact ⟨hbN, hwN, hgU, hOE⟩
  · refine ⟨?_, ?_, ?_, ?_⟩
    · unfold businessIdsNodup at hbN ⊢
      rw [hb]
      exact hbN
    · unfold websiteIdsNodup at hwN ⊢
      rw [hw]
      exact hwN.sublist ((List.filter_sublist _).map _)
    · unfold googlePlaceIdsUnique at hgU ⊢
      rw [hb]
      exact hgU
    · unfold ownersExist at hOE ⊢
      intro w hw2
      rw [hw] at hw2
      rw [hb]
      exact hOE w (List.mem_filter.mp hw2).1

/-- `logOutreach` preserves the structural invariant bundle. -/
theorem logOutreach_preserves_storeInv (db : DB) (d : OutreachInsert) (db2 : DB)
    (o : OutreachLog) (h : logOutreach db d = .ok (db2, o)) (hinv : StoreInv db) :
    StoreInv db2 := by
  obtain ⟨hws, hbs⟩ := logOutreach_ok_elim db d db2 o h
  obtain ⟨hbN, hwN, hgU, hOE⟩ := hinv
  refine ⟨?_, ?_, ?_, ?_⟩
  · unfold businessIdsNodup at hbN ⊢
    rw [hbs, map_ids_of_preserve _ _ (updFun_id d.business_id _ (db.tick + 1))]
    exact hbN
  · unfold websiteIdsNodup at hwN ⊢
    rw [hws]
    exact hwN
  · unfold googlePlaceIdsUnique at hgU ⊢
    rw [hbs, filterMap_gpid_of_preserve _ _ (updFun_gpid d.business_id _ (db.tick + 1))]
    exact hgU
  · unfold ownersExist at hOE ⊢
    intro w hw2
    rw [hws] at hw2
    rw [hbs]
    exact exists_id_map _ _ (updFun_id d.business_id _ (db.tick + 1)) _ (hOE w hw2)

/-- `updateOutreachResponse` preserves the structural invariant bundle. -/
theorem updateOutreachResponse_preserves_storeInv (db : DB) (id : Nat) (r : String)
    (n : Option String) (hinv : StoreInv db) :
    StoreInv (updateOutreachResponse db id r n).1 := by
  obtain ⟨hb, hw⟩ := updateOutreachResponse_shape db id r n
  obtain ⟨hbN, hwN, hgU, hOE⟩ := hinv
  refine ⟨?_, ?_, ?_, ?_⟩
  · unfold businessIdsNodup at hbN ⊢
    rw [hb]
    exact hbN
  · unfold websiteIdsNodup at hwN ⊢
    rw [hw]
    exact hwN
  · unfold googlePlaceIdsUnique at hgU ⊢
    rw [hb]
    exact hgU
  · unfold ownersExist at hOE ⊢
    intro w hw2
    rw [hw] at hw2
    rw [hb]
    exact hOE w hw2

/-- A property closed under single `insertBusiness` successes is closed under
the skip-on-failure batch fold. -/
theorem insertLoop_preserves (P : DB → Prop)
    (hP : ∀ db d db2 b, insertBusiness db d = .ok (db2, b) → P db → P db2)
    (batch : List BusinessInsert) :
    ∀ acc : DB × Nat, P acc.1 →
      P ((batch.foldl
        (fun acc d =>
          match insertBusiness acc.1 d with
          | .ok r => (r.1, acc.2 + 1)
          | .error _ => acc)
        acc)).1 := by
  induction batch with
  | nil =>
    intro acc h
    simpa using h
  | cons d rest ih =>
    intro acc h
    simp only [List.foldl_cons]
    cases hres : insertBusiness acc.1 d with
    | ok r =>
      exact ih (r.1, acc.2 + 1) (hP acc.1 d r.1 r.2 (by rw [hres]) h)
    | error e =>
      exact ih acc h

/-- `insertBusinesses` preserves the structural invariant bundle. -/
theorem insertBusinesses_preserves_storeInv (db : DB) (batch : List BusinessInsert)
    (hinv : StoreInv db) : StoreInv (insertBusinesses db batch).1 := by
  rw [insertBusinesses_eq_insertLoop]
  exact insertLoop_preserves StoreInv
    (fun a d b2 bb hres hp => insertBusiness_preserves_storeInv a d b2 bb hres hp)
    batch (db, 0) hinv

/-- Every store operation preserves the structural invariant bundle. -/
theorem step_preserves_storeInv (db db2 : DB) (h : Step db db2) (hinv : StoreInv db) :
    StoreInv db2 := by
  cases h with
  | insertBusinessStep d dbx b hres =>
    exact insertBusiness_preserves_storeInv _ d _ b hres hinv
  | insertBusinessesStep batch =>
    exact insertBusinesses_preserves_storeInv _ batch hinv
  | updateBusinessStep id u =>
    exact updateBusiness_preserves_storeInv _ id u hinv
  | markBusinessEnrichedStep id e =>
    exact updateBusiness_preserves_storeInv _ id _ hinv
  | deleteBusinessStep id =>
    exact deleteBusiness_preserves_storeInv _ id hinv
  | insertWebsiteStep d dbx w hres =>
    exact insertWebsite_preserves_storeInv _ d _ w hres hinv
  | updateWebsiteStep id u =>
    exact updateWebsite_preserves_storeInv _ id u hinv
  | markWebsiteDeployedStep id url =>
    exact markWebsiteDeployed_preserves_storeInv _ id url hinv
  | deleteWebsiteStep id =>
    exact deleteWebsite_preserves_storeInv _ id hinv
  | logOutreachStep d dbx o hres =>
    exact logOutreach_preserves_storeInv _ d _ o hres hinv
  | updateOutreachResponseStep id r n =>
    exact updateOutreachResponse_preserves_storeInv _ id r n hinv

/-- Every reachable store state satisfies the structural invariant bundle. -/
theorem reachable_storeInv (db : DB) (h : Reachable db) : StoreInv db := by
  unfold Reachable at h
  induction h with
  | refl => exact storeInv_empty
  | tail _ hbc ih => exact step_preserves_storeInv _ _ hbc ih

/-- Every pipeline mutation is in particular a store mutation. -/
theorem pipelineStep_to_step (db db2 : DB) (h : PipelineStep db db2) : Step db db2 := by
  cases h with
  | insertBusinessStep d dbx b hres => exact Step.insertBusinessStep _ d _ b hres
  | insertBusinessesStep batch => exact Step.insertBusinessesStep _ batch
  | updateBusinessStep id u => exact Step.updateBusinessStep _ id u
  | markBusinessEnrichedStep id e => exact Step.markBusinessEnrichedStep _ id e
  | deleteBusinessStep id => exact Step.deleteBusinessStep _ id
  | insertWebsiteStep d dbx w hpre hres => exact Step.insertWebsiteStep _ d _ w hres
  | markWebsiteDeployedStep id url => exact Step.markWebsiteDeployedStep _ id url
  | deleteWebsiteStep id => exact Step.deleteWebsiteStep _ id
  | logOutreachStep d dbx o hres => exact Step.logOutreachStep _ d _ o hres
  | updateOutreachResponseStep id r n => exact Step.updateOutreachResponseStep _ id r n

/-- Pipeline-reachable store states are reachable. -/
theorem pipelineReachable_reachable (db : DB) (h : PipelineReachable db) : Reachable db := by
  unfold PipelineReachable at h
  unfold Reachable
  exact Relation.ReflTransGen.mono pipelineStep_to_step h

/-
C1: the pending-deployment invariant.
-/

/-- `insertBusiness` leaves the websites table untouched. -/
theorem insertBusiness_websites (db : DB) (d : BusinessInsert) (db2 : DB) (b : Business)
    (h : insertBusiness db d = .ok (db2, b)) : db2.websites = db.websites := by
  obtain ⟨_, _, hdb2⟩ := insertBusiness_ok_elim db d db2 b h
  rw [hdb2]

/-- The websites table after `markWebsiteDeployed` is either untouched or a
map writing both `preview_url` and `deployed_at` on the matched id. -/
theorem markWebsiteDeployed_websites_cases (db : DB) (id : Nat) (url : String) :
    (markWebsiteDeployed db id url).1.websites = db.websites ∨
    (markWebsiteDeployed db id url).1.websites = db.websites.map
      (fun w => if w.id == id then applyWebsiteUpdate w
        { preview_url := some (some url), deployed_at := some (some db.tick) } else w) := by
  cases hp : (updateWebsite db id
      { preview_url := some (some url), deployed_at := some (some db.tick) }).2 with
  | none =>
    have h1 : (markWebsiteDeployed db id url).1 = (updateWebsite db id
        { preview_url := some (some url), deployed_at := some (some db.tick) }).1 := by
      show (match (updateWebsite db id
            { preview_url := some (some url), deployed_at := some (some db.tick) }).2 with
          | some w0 =>
            ((updateBusinessStatus (updateWebsite db id
                { preview_url := some (some url), deployed_at := some (some db.tick) }).1
              w0.business_id BusinessStatus.deployed).1, some w0)
          | none =>
            ((updateWebsite db id
              { preview_url := some (some url), deployed_at := some (some db.tick) }).1,
             (none : Option GeneratedWebsite))).1 =
          (updateWebsite db id
            { preview_url := some (some url), deployed_at := some (some db.tick) }).1
      rw [hp]
    rw [h1]
    exact updateWebsite_websites_cases db id _
  | some w0 =>
    have h1 : (markWebsiteDeployed db id url).1 =
        (updateBusinessStatus (updateWebsite db id
            { preview_url := some (some url), deployed_at := some (some db.tick) }).1
          w0.business_id BusinessStatus.deployed).1 := by
      show (match (updateWebsite db id
            { preview_url := some (some url), deployed_at := some (some db.tick) }).2 with
          | some w0 =>
            ((updateBusinessStatus (updateWebsite db id
                { preview_url := some (some url), deployed_at := some (some db.tick) }).1
              w0.business_id BusinessStatus.deployed).1, some w0)
          | none =>
            ((updateWebsite db id
              { preview_url := some (some url), deployed_at := some (some db.tick) }).1,
             (none : Option GeneratedWebsite))).1 =
          (updateBusinessStatus (updateWebsite db id
              { preview_url := some (some url), deployed_at := some (some db.tick) }).1
            w0.business_id BusinessStatus.deployed).1
      rw [hp]
    have h2 : (markWebsiteDeployed db id url).1.websites = (updateWebsite db id
        { preview_url := some (some url), deployed_at := some (some db.tick) }).1.websites := by
      rw [h1]
      exact updateBusiness_websites _ _ _
    rw [h2]
    exact updateWebsite_websites_cases db id _

/-- After `updateBusinessStatus(id, s)` every row keyed `id` carries status
`s`. -/
theorem updateBusinessStatus_sets (db : DB) (id : Nat) (s : BusinessStatus) :
    ∀ b ∈ (updateBusinessStatus db id s).1.businesses, b.id = id → b.status = s := by
  intro b hb hid
  by_cases hany : (db.businesses.any (fun x => x.id == id)) = true
  · have hbs : (updateBusinessStatus db id s).1.businesses =
        db.businesses.map (fun b => if b.id == id then
          applyBusinessUpdate b { status := some s } db.tick else b) :=
      updateBusiness_businesses_pos db id _ hany
    rw [hbs] at hb
    rcases List.mem_map.mp hb with ⟨b0, hb0, hfb⟩
    by_cases hc : (b0.id == id) = true
    · rw [← hfb]
      simp [hc, applyBusinessUpdate]
    · rw [← hfb] at hid
      simp only [hc, Bool.false_eq_true, if_false] at hid
      exact absurd (by simp [hid]) hc
  · have hbs : (updateBusinessStatus db id s).1.businesses = db.businesses :=
      updateBusiness_businesses_neg db id _ hany
    rw [hbs] at hb
    exact absurd (List.any_eq_true.mpr ⟨b, hb, by simp [hid]⟩) hany

/-- Elimination for a `markWebsiteDeployed` call that found its row: the
returned row has `preview_url = url` and `deployed_at` set, and every row of
the owning business's key carries status `deployed` afterwards. -/
theorem markWebsiteDeployed_found_elim (db : DB) (id : Nat) (url : String) (db2 : DB)
    (w : GeneratedWebsite) (h : markWebsiteDeployed db id url = (db2, some w)) :
    w.preview_url = some url ∧ w.deployed_at = some db.tick ∧
    ∀ b ∈ db2.businesses, b.id = w.business_id → b.status = BusinessStatus.deployed := by
  have h0 : markWebsiteDeployed db id url =
      (match (updateWebsite db id
          { preview_url := some (some url), deployed_at := some (some db.tick) }).2 with
        | some w0 =>
          ((updateBusinessStatus (updateWebsite db id
              { preview_url := some (some url), deployed_at := some (some db.tick) }).1
            w0.business_id BusinessStatus.deployed).1, some w0)
        | none =>
          ((updateWebsite db id
            { preview_url := some (some url), deployed_at := some (some db.tick) }).1,
           (none : Option GeneratedWebsite))) := rfl
  rw [h0] at h
  cases hp : (updateWebsite db id
      { preview_url := some (some url), deployed_at := some (some db.tick) }).2 with
  | none =>
    rw [hp] at h
    simp at h
  | some w0 =>
    rw [hp] at h
    have h' : ((updateBusinessStatus (updateWebsite db id
          { preview_url := some (some url), deployed_at := some (some db.tick) }).1
        w0.business_id BusinessStatus.deployed).1, some w0) = (db2, some w) := h
    have hdb2 : (updateBusinessStatus (updateWebsite db id
        { preview_url := some (some url), deployed_at := some (some db.tick) }).1
        w0.business_id BusinessStatus.deployed).1 = db2 := congrArg Prod.fst h'
    have hww : w0 = w := Option.some.inj (congrArg Prod.snd h')
    subst hww
    have hne : ({ preview_url := some (some url), deployed_at := some (some db.tick) }
        : WebsiteUpdate).isEmpty = false := rfl
    unfold updateWebsite at hp
    rw [hne] at hp
    simp only [Bool.false_eq_true, if_false] at hp
    by_cases hany : (db.websites.any (fun x => x.id == id)) = true
    · rw [if_pos hany] at hp
      have hp2 : (db.websites.map (fun x => if x.id == id then applyWebsiteUpdate x
            { preview_url := some (some url), deployed_at := some (some db.tick) }
          else x)).find? (fun x => x.id == id) = some w0 := hp
      have hwpred := List.find?_some hp2
      have hwmem := List.mem_of_find?_eq_some hp2
      rcases List.mem_map.mp hwmem with ⟨wb, hwb, hfw⟩
      by_cases hc : (wb.id == id) = true
      · have hwe : w0 = applyWebsiteUpdate wb
            { preview_url := some (some url), deployed_at := some (some db.tick) } := by
          rw [← hfw]
          simp [hc]
        refine ⟨by rw [hwe]; rfl, by rw [hwe]; rfl, ?_⟩
        rw [← hdb2]
        exact updateBusinessStatus_sets _ _ _
      · exfalso
        have hwe : w0 = wb := by
          rw [← hfw]
          simp [hc]
        rw [hwe] at hwpred
        exact hc hwpred
    · rw [if_neg hany] at hp
      exact Option.noConfusion hp

/-- Each pipeline mutation preserves the pending-deployment invariant. -/
theorem pipelineStep_preserves_pending (db db2 : DB) (h : PipelineStep db db2)
    (hp : pendingIffBothNull db) : pendingIffBothNull db2 := by
  cases h with
  | insertBusinessStep d dbx b hres =>
    intro w hw
    rw [insertBusiness_websites db d _ b hres] at hw
    exact hp w hw
  | insertBusinessesStep batch =>
    have hP : ∀ (a : DB) (d : BusinessInsert) (b2 : DB) (bb : Business),
        insertBusiness a d = .ok (b2, bb) → pendingIffBothNull a → pendingIffBothNull b2 := by
      intro a d b2 bb hres hpa w hw
      rw [insertBusiness_websites a d b2 bb hres] at hw
      exact hpa w hw
    rw [show (insertBusinesses db batch) = _ from insertBusinesses_eq_insertLoop db batch]
    exact insertLoop_preserves pendingIffBothNull hP batch (db, 0) hp
  | updateBusinessStep id u =>
    intro w hw
    rw [updateBusiness_websites db id u] at hw
    exact hp w hw
  | markBusinessEnrichedStep id e =>
    intro w hw
    rw [show (markBusinessEnriched db id e).1.websites = db.websites from
      updateBusiness_websites db id _] at hw
    exact hp w hw
  | deleteBusinessStep id =>
    intro w hw
    rcases deleteBusiness_shape db id with hsh | ⟨_, hws, _⟩
    · rw [hsh] at hw
      exact hp w hw
    · rw [hws] at hw
      exact hp w (List.mem_filter.mp hw).1
  | insertWebsiteStep d dbx w hpre hres =>
    intro w2 hw2
    obtain ⟨wr, _, _, hwpre, hwdep, _, _, hws, _, _⟩ := insertWebsite_ok_elim db d _ w hres
    rw [hws] at hw2
    rcases List.mem_append.mp hw2 with hold | hnew
    · exact hp w2 hold
    · simp only [List.mem_singleton] at hnew
      subst hnew
      rw [hwpre, hwdep, hpre]
      exact ⟨fun _ => rfl, fun _ => rfl⟩
  | markWebsiteDeployedStep id url =>
    intro w hw
    rcases markWebsiteDeployed_websites_cases db id url with hws | hws
    · rw [hws] at hw
      exact hp w hw
    · rw [hws] at hw
      rcases List.mem_map.mp hw with ⟨w0, hw0, hfw⟩
      by_cases hc : (w0.id == id) = true
      · have hwe : w = applyWebsiteUpdate w0
            { preview_url := some (some url), deployed_at := some (some db.tick) } := by
          rw [← hfw]
          simp [hc]
        rw [hwe]
        simp [applyWebsiteUpdate]
      · have hwe : w = w0 := by
          rw [← hfw]
          simp [hc]
        rw [hwe]
        exact hp w0 hw0
  | deleteWebsiteStep id =>
    intro w hw
    rcases deleteWebsite_shape db id with hsh | ⟨_, hws, _⟩
    · rw [hsh] at hw
      exact hp w hw
    · rw [hws] at hw
      exact hp w (List.mem_filter.mp hw).1
  | logOutreachStep d dbx o hres =>
    intro w hw
    obtain ⟨hws, _⟩ := logOutreach_ok_elim db d _ o hres
    rw [hws] at hw
    exact hp w hw
  | updateOutreachResponseStep id r n =>
    intro w hw
    rw [(updateOutreachResponse_shape db id r n).2] at hw
    exact hp w hw

/-- C1 (counterexample to the claim as stated): `insertWebsite` accepts a
payload carrying a `preview_url` while always writing `deployed_at = NULL`,
so a store state reachable through the raw store operations violates
`preview_url IS NULL ⟺ deployed_at IS NULL`. -/
theorem c1_counterexample : Reachable exDBBadWebsite ∧ ¬ pendingIffBothNull exDBBadWebsite := by
  constructor
  · have s1 : Step emptyDB exDB1 :=
      Step.insertBusinessStep emptyDB exBizIns exDB1 (resolveBusinessInsert exBizIns 0 0)
        (by decide)
    have s2 : Step exDB1 exDBBadWebsite :=
      Step.insertWebsiteStep exDB1 exWebInsPreview exDBBadWebsite
        { id := 1
          business_id := 0
          template_name := "suspended_dark"
          variation_number := 1
          html_content := "<html></html>"
          preview_url := some "https://preview.mock"
          deployed_at := none
          created_at := 1 }
        (by decide)
    exact Relation.ReflTransGen.tail (Relation.ReflTransGen.single s1) s2
  · unfold pendingIffBothNull
    decide

/-- C1 (amended): through the pipeline's own mutations — `insertWebsite`
always called without a `preview_url`, website rows only ever mutated via
`markWebsiteDeployed` — every website row satisfies
`preview_url IS NULL ⟺ deployed_at IS NULL`; and after a successful
`markWebsiteDeployed(id, url)` the returned row has both fields non-null and
every business row it points to carries status exactly `deployed`. -/
theorem c1_pending_deployment_invariant :
    (∀ db : DB, PipelineReachable db → pendingIffBothNull db) ∧
    (∀ (db : DB) (id : Nat) (url : String) (db2 : DB) (w : GeneratedWebsite),
        markWebsiteDeployed db id url = (db2, some w) →
        w.preview_url ≠ none ∧ w.deployed_at ≠ none ∧
        ∀ b ∈ db2.businesses, b.id = w.business_id → b.status = BusinessStatus.deployed) := by
  constructor
  · intro db h
    unfold PipelineReachable at h
    induction h with
    | refl =>
      intro w hw
      exact absurd hw (by simp [emptyDB])
    | tail _ hbc ih => exact pipelineStep_preserves_pending _ _ hbc ih
  · intro db id url db2 w h
    obtain ⟨h1, h2, h3⟩ := markWebsiteDeployed_found_elim db id url db2 w h
    exact ⟨by simp [h1], by simp [h2], h3⟩

/-- C1 witness: the amended invariant evaluated on the concrete
business-plus-pending-website fixture and a concrete deployment. -/
theorem c1_witness :
    pendingIffBothNull exDBPending ∧
    ∃ (db2 : DB) (w : GeneratedWebsite),
      markWebsiteDeployed exDBPending 1 "https://live.example" = (db2, some w) ∧
      w.preview_url ≠ none ∧ w.deployed_at ≠ none ∧
      ∀ b ∈ db2.businesses, b.id = w.business_id → b.status = BusinessStatus.deployed := by
  obtain ⟨h1, h2⟩ := c1_pending_deployment_invariant
  constructor
  · refine h1 exDBPending ?_
    have p1 : PipelineStep emptyDB exDB1 :=
      PipelineStep.insertBusinessStep emptyDB exBizIns exDB1
        (resolveBusinessInsert exBizIns 0 0) (by decide)
    have p2 : PipelineStep exDB1 exDBPending :=
      PipelineStep.insertWebsiteStep exDB1 exWebIns exDBPending
        { id := 1
          business_id := 0
          template_name := "suspended_dark"
          variation_number := 1
          html_content := "<html></html>"
          preview_url := none
          deployed_at := none
          created_at := 1 }
        (by decide) (by decide)
    exact Relation.ReflTransGen.tail (Relation.ReflTransGen.single p1) p2
  · have hsnd : (markWebsiteDeployed exDBPending 1 "https://live.example").2 =
        some { id := 1
               business_id := 0
               template_name := "suspended_dark"
               variation_number := 1
               html_content := "<html></html>"
               preview_url := some "https://live.example"
               deployed_at := some 3
               created_at := 1 } := by decide
    have hc : markWebsiteDeployed exDBPending 1 "https://live.example" =
        ((markWebsiteDeployed exDBPending 1 "https://live.example").1,
         some { id := 1
                business_id := 0
                template_name := "suspended_dark"
                variation_number := 1
                html_content := "<html></html>"
                preview_url := some "https://live.example"
                deployed_at := some 3
                created_at := 1 }) := by
      rw [← hsnd]
    exact ⟨_, _, hc, h2 _ _ _ _ _ hc⟩

/-
C3: discovery-time dedup.
-/

/-- A row whose `google_place_id` already occurs among the existing rows
violates the partial unique index. -/
theorem violates_of_gpid (rows : List Business) (b : Business) (p : String)
    (hb : b.google_place_id = some p) (h : ∃ r ∈ rows, r.google_place_id = some p) :
    violatesBusinessUnique rows b = true := by
  unfold violatesBusinessUnique
  rw [hb]
  obtain ⟨r, hr, hrp⟩ := h
  simp only [Bool.or_eq_true]
  exact Or.inr (List.any_eq_true.mpr ⟨r, hr, by simp [hrp]⟩)

/-- C3 (counterexample to the claim as stated): a candidate whose place id
matches an existing row's `google_place_id` under different provenance is not
skipped-and-counted — `saveIfNew` throws out of the `(area, category)` pair
instead. -/
theorem c3_counterexample :
    Reachable exDBRegistry ∧
    (∃ r ∈ exDBRegistry.businesses, r.google_place_id = some exPlaceP.place_id) ∧
    saveIfNew exDBRegistry exPlaceP BusinessCategory.barber_shop areaHS = .error () := by
  refine ⟨?_, ⟨resolveBusinessInsert exBizInsRegistry 0 0, by decide, by decide⟩, by decide⟩
  exact Relation.ReflTransGen.single
    (Step.insertBusinessStep emptyDB exBizInsRegistry exDBRegistry
      (resolveBusinessInsert exBizInsRegistry 0 0) (by decide))

/-- C3 (amended): no two reachable business rows ever share a
`google_place_id`; `saveIfNew` skips (returning `already exists`) candidates
matching an existing `(source='google_places', source_id)` row or matching a
row case-insensitively on name+city+state; and a candidate whose
`google_place_id` matches an existing row is never inserted — but when
neither skip-check fires it raises an error instead of being counted. -/
theorem c3_discovery_dedup :
    (∀ db : DB, Reachable db → googlePlaceIdsUnique db) ∧
    (∀ (db : DB) (p : Place) (c : BusinessCategory) (a : SearchArea),
        businessExistsBySource db "google_places" p.place_id = true →
        saveIfNew db p c a = .ok (db, false)) ∧
    (∀ (db : DB) (p : Place) (c : BusinessCategory) (a : SearchArea),
        existsByNameCityState db p.name (p.ac_city.getD a.city) (p.ac_state.getD a.state) =
          true →
        saveIfNew db p c a = .ok (db, false)) ∧
    (∀ (db : DB) (p : Place) (c : BusinessCategory) (a : SearchArea),
        (∃ r ∈ db.businesses, r.google_place_id = some p.place_id) →
        saveIfNew db p c a = .ok (db, false) ∨ saveIfNew db p c a = .error ()) := by
  refine ⟨fun db h => (reachable_storeInv db h).2.2.1, ?_, ?_, ?_⟩
  · intro db p c a h
    unfold saveIfNew
    rw [if_pos h]
  · intro db p c a h
    unfold saveIfNew
    by_cases h1 : businessExistsBySource db "google_places" p.place_id = true
    · rw [if_pos h1]
    · rw [if_neg h1, if_pos h]
  · intro db p c a h
    by_cases h1 : businessExistsBySource db "google_places" p.place_id = true
    · left
      unfold saveIfNew
      rw [if_pos h1]
    · by_cases h2 : existsByNameCityState db p.name (p.ac_city.getD a.city)
          (p.ac_state.getD a.state) = true
      · left
        unfold saveIfNew
        rw [if_neg h1, if_pos h2]
      · right
        unfold saveIfNew
        rw [if_neg h1, if_neg h2]
        have hviol : violatesBusinessUnique db.businesses
            (resolveBusinessInsert
              { name := p.name
                business_type := some (CATEGORY_LABELS c)
                address := some (p.ac_street.getD p.formatted_address)
                city := some (p.ac_city.getD a.city)
                state := some (p.ac_state.getD a.state)
                county := p.ac_county
                phone := p.phone
                website_url := none
                has_website := some 0
                source := "google_places"
                source_id := some p.place_id
                category := some (categoryValue c)
                google_place_id := some p.place_id
                status := some .discovered }
              (({ name := p.name
                  business_type := some (CATEGORY_LABELS c)
                  address := some (p.ac_street.getD p.formatted_address)
                  city := some (p.ac_city.getD a.city)
                  state := some (p.ac_state.getD a.state)
                  county := p.ac_county
                  phone := p.phone
                  website_url := none
                  has_website := some 0
                  source := "google_places"
                  source_id := some p.place_id
                  category := some (categoryValue c)
                  google_place_id := some p.place_id
                  status := some .discovered } : BusinessInsert).id.getD db.tick)
              db.tick) = true :=
          violates_of_gpid _ _ p.place_id rfl h
        have hins : insertBusiness db
            { name := p.name
              business_type := some (CATEGORY_LABELS c)
              address := some (p.ac_street.getD p.formatted_address)
              city := some (p.ac_city.getD a.city)
              state := some (p.ac_state.getD a.state)
              county := p.ac_county
              phone := p.phone
              website_url := none
              has_website := some 0
              source := "google_places"
              source_id := some p.place_id
              category := some (categoryValue c)
              google_place_id := some p.place_id
              status := some .discovered } = .error () := by
          unfold insertBusiness
          rw [if_pos hviol]
        rw [hins]

/-- C3 witness: the amended dedup behaviour evaluated on concrete stores —
a Google-sourced store skipping a same-place-id candidate and a
same-name-city-state candidate, and the registry store erroring on a
provenance-crossing `google_place_id` match. -/
theorem c3_witness :
    googlePlaceIdsUnique exDBRegistry ∧
    saveIfNew (exceptDB (saveIfNew emptyDB exPlaceP BusinessCategory.barber_shop areaHS) emptyDB)
        exPlaceP BusinessCategory.barber_shop areaHS =
      .ok (exceptDB (saveIfNew emptyDB exPlaceP BusinessCategory.barber_shop areaHS) emptyDB,
           false) ∧
    saveIfNew (exceptDB (saveIfNew emptyDB exPlaceP BusinessCategory.barber_shop areaHS) emptyDB)
        { exPlaceP with place_id := "Q" } BusinessCategory.barber_shop areaHS =
      .ok (exceptDB (saveIfNew emptyDB exPlaceP BusinessCategory.barber_shop areaHS) emptyDB,
           false) ∧
    (saveIfNew exDBRegistry exPlaceP BusinessCategory.barber_shop areaHS =
        .ok (exDBRegistry, false) ∨
      saveIfNew exDBRegistry exPlaceP BusinessCategory.barber_shop areaHS = .error ()) := by
  obtain ⟨h1, h2, h3, h4⟩ := c3_discovery_dedup
  refine ⟨h1 exDBRegistry ?_, h2 _ _ _ _ (by decide), h3 _ _ _ _ (by decide),
    h4 _ _ _ _ ⟨resolveBusinessInsert exBizInsRegistry 0 0, by decide, by decide⟩⟩
  exact Relation.ReflTransGen.single
    (Step.insertBusinessStep emptyDB exBizInsRegistry exDBRegistry
      (resolveBusinessInsert exBizInsRegistry 0 0) (by decide))

/-
C2: status monotonicity across one pipeline run.  Generic row-evolution
machinery first.
-/

/-- `rowEvolves` is reflexive, so any unchanged table evolves trivially. -/
theorem forall₂_rowEvolves_refl (l : List Business) : List.Forall₂ rowEvolves l l :=
  List.forall₂_same.mpr (fun b _ => ⟨rfl, Nat.le_refl _⟩)

/-- `rowEvolves` tracking composes across consecutive stages. -/
theorem forall₂_rowEvolves_trans :
    ∀ {l1 l2 l3 : List Business}, List.Forall₂ rowEvolves l1 l2 →
      List.Forall₂ rowEvolves l2 l3 → List.Forall₂ rowEvolves l1 l3 := by
  intro l1 l2 l3 h12
  induction h12 generalizing l3 with
  | nil =>
    intro h23
    cases h23
    exact List.Forall₂.nil
  | cons hab h ih =>
    intro h23
    cases h23 with
    | cons hbc h' =>
      exact List.Forall₂.cons ⟨hab.1.trans hbc.1, hab.2.trans hbc.2⟩ (ih h')

/-- Pointwise action of an id-preserving rewrite evolves the table. -/
theorem forall₂_map_self {α : Type} (R : α → α → Prop) (f : α → α) :
    ∀ l : List α, (∀ b ∈ l, R b (f b)) → List.Forall₂ R l (l.map f) := by
  intro l
  induction l with
  | nil =>
    intro
    exact List.Forall₂.nil
  | cons a t ih =>
    intro h
    exact List.Forall₂.cons (h a (List.mem_cons_self a t))
      (ih (fun b hb => h b (List.mem_cons_of_mem a hb)))

/-- Any row of the evolved table descends from a same-keyed row of the
source table at `≤` rank. -/
theorem forall₂_rowEvolves_source :
    ∀ {l1 l2 : List Business}, List.Forall₂ rowEvolves l1 l2 →
      ∀ b2 ∈ l2, ∃ b1 ∈ l1, b1.id = b2.id ∧ statusRank b1.status ≤ statusRank b2.status := by
  intro l1 l2 h
  induction h with
  | nil =>
    intro b2 hb2
    exact absurd hb2 (List.not_mem_nil b2)
  | cons hab h ih =>
    intro b2 hb2
    rcases List.mem_cons.mp hb2 with heq | hmem
    · subst heq
      exact ⟨_, List.mem_cons_self _ _, hab.1, hab.2⟩
    · obtain ⟨b1, hb1, hfact⟩ := ih b2 hmem
      exact ⟨b1, List.mem_cons_of_mem _ hb1, hfact⟩

/-- Membership through the structural ordered insert. -/
theorem mem_orderedInsertBy {α : Type} (le : α → α → Bool) (a : α) :
    ∀ (l : List α) (x : α), x ∈ orderedInsertBy le a l ↔ x = a ∨ x ∈ l := by
  intro l
  induction l with
  | nil =>
    intro x
    simp [orderedInsertBy]
  | cons b t ih =>
    intro x
    unfold orderedInsertBy
    by_cases hle : le a b = true
    · rw [if_pos hle]
      simp [List.mem_cons]
    · rw [if_neg hle]
      simp only [List.mem_cons, ih x]
      tauto

/-- Membership through the structural `ORDER BY` model. -/
theorem mem_orderBy {α : Type} (le : α → α → Bool) :
    ∀ (l : List α) (x : α), x ∈ orderBy le l ↔ x ∈ l := by
  intro l
  induction l with
  | nil =>
    intro x
    simp [orderBy]
  | cons b t ih =>
    intro x
    unfold orderBy
    rw [mem_orderedInsertBy, ih x, List.mem_cons]

/-- A row of the generation work queue is a stored row at lifecycle rank
`≤ 1`. -/
theorem mem_needingWebsites (db : DB) (limit : Nat) (b : Business)
    (h : b ∈ getBusinessesNeedingWebsites db limit) :
    b ∈ db.businesses ∧ statusRank b.status ≤ 1 := by
  unfold getBusinessesNeedingWebsites at h
  have h2 := List.mem_of_mem_take h
  rw [mem_orderBy] at h2
  obtain ⟨hmem, hpred⟩ := List.mem_filter.mp h2
  refine ⟨hmem, ?_⟩
  simp only [Bool.and_eq_true, Bool.or_eq_true, beq_iff_eq] at hpred
  rcases hpred.2 with hs | hs <;> rw [hs] <;> simp [statusRank]

/-- A row of the deployment work queue is a stored, still-pending row. -/
theorem mem_pendingDeployment (db : DB) (limit : Nat) (w : GeneratedWebsite)
    (h : w ∈ getWebsitesPendingDeployment db limit) :
    w ∈ db.websites ∧ w.deployed_at = none := by
  unfold getWebsitesPendingDeployment at h
  have h2 := List.mem_of_mem_take h
  rw [mem_orderBy] at h2
  obtain ⟨hmem, hpred⟩ := List.mem_filter.mp h2
  exact ⟨hmem, Option.isNone_iff_eq_none.mp hpred⟩

/-- A successful `saveIfNew` either skipped (store unchanged) or performed one
`insertBusiness` whose payload carried status `discovered`. -/
theorem saveIfNew_ok_cases (db : DB) (p : Place) (c : BusinessCategory) (a : SearchArea)
    (db2 : DB) (s : Bool) (h : saveIfNew db p c a = .ok (db2, s)) :
    db2 = db ∨ ∃ (d : BusinessInsert) (bb : Business),
      d.status = some BusinessStatus.discovered ∧ insertBusiness db d = .ok (db2, bb) := by
  unfold saveIfNew at h
  by_cases h1 : businessExistsBySource db "google_places" p.place_id = true
  · rw [if_pos h1] at h
    simp only [Except.ok.injEq, Prod.mk.injEq] at h
    exact Or.inl h.1.symm
  · rw [if_neg h1] at h
    by_cases h2 : existsByNameCityState db p.name (p.ac_city.getD a.city)
        (p.ac_state.getD a.state) = true
    · rw [if_pos h2] at h
      simp only [Except.ok.injEq, Prod.mk.injEq] at h
      exact Or.inl h.1.symm
    · rw [if_neg h2] at h
      cases hres : insertBusiness db
          { name := p.name
            business_type := some (CATEGORY_LABELS c)
            address := some (p.ac_street.getD p.formatted_address)
            city := some (p.ac_city.getD a.city)
            state := some (p.ac_state.getD a.state)
            county := p.ac_county
            phone := p.phone
            website_url := none
            has_website := some 0
            source := "google_places"
            source_id := some p.place_id
            category := some (categoryValue c)
            google_place_id := some p.place_id
            status := some .discovered } with
      | error e =>
        rw [hres] at h
        exact Except.noConfusion h
      | ok r =>
        rw [hres] at h
        have h' : (Except.ok (r.1, true) : Except Unit (DB × Bool)) = .ok (db2, s) := h
        simp only [Except.ok.injEq, Prod.mk.injEq] at h'
        refine Or.inr ⟨{ name := p.name
                         business_type := some (CATEGORY_LABELS c)
                         address := some (p.ac_street.getD p.formatted_address)
                         city := some (p.ac_city.getD a.city)
                         state := some (p.ac_state.getD a.state)
                         county := p.ac_county
                         phone := p.phone
                         website_url := none
                         has_website := some 0
                         source := "google_places"
                         source_id := some p.place_id
                         category := some (categoryValue c)
                         google_place_id := some p.place_id
                         status := some .discovered }, r.2, rfl, ?_⟩
        rw [hres, ← h'.1]

/-- The discovery save loop only appends fresh `discovered` business rows and
never touches websites; it also preserves the structural invariants. -/
theorem saveLoop_extends (c : BusinessCategory) (a : SearchArea) :
    ∀ (places : List Place) (db : DB),
      ∃ new : List Business,
        (saveLoop db places c a).1.businesses = db.businesses ++ new ∧
        (∀ r ∈ new, r.status = BusinessStatus.discovered ∧ ∀ b ∈ db.businesses, b.id ≠ r.id) ∧
        (saveLoop db places c a).1.websites = db.websites ∧
        (StoreInv db → StoreInv (saveLoop db places c a).1) := by
  intro places
  induction places with
  | nil =>
    intro db
    exact ⟨[], by simp [saveLoop], by simp, rfl, fun h => h⟩
  | cons p rest ih =>
    intro db
    cases hres : saveIfNew db p c a with
    | error e =>
      have hstep : saveLoop db (p :: rest) c a = (db, 0, 0, true) := by
        unfold saveLoop
        rw [hres]
      refine ⟨[], ?_, by simp, ?_, fun h => ?_⟩
      · rw [hstep]
        simp
      · rw [hstep]
      · rw [hstep]
        exact h
    | ok pr =>
      obtain ⟨db2, saved⟩ := pr
      have hstep : (saveLoop db (p :: rest) c a).1 = (saveLoop db2 rest c a).1 := by
        conv_lhs => unfold saveLoop
        rw [hres]
      rcases saveIfNew_ok_cases db p c a db2 saved hres with hskip | ⟨d, bb, hdst, hins⟩
      · subst hskip
        obtain ⟨new, h1, h2, h3, h4⟩ := ih db2
        exact ⟨new, by rw [hstep]; exact h1, h2, by rw [hstep]; exact h3,
          fun h => by rw [hstep]; exact h4 h⟩
      · obtain ⟨hbb, hviol, hdb2⟩ := insertBusiness_ok_elim db d db2 bb hins
        obtain ⟨hid, _⟩ := violates_false_elim _ _ hviol
        obtain ⟨new2, h1, h2, h3, h4⟩ := ih db2
        have hbbst : bb.status = BusinessStatus.discovered := by
          rw [hbb]
          show d.status.getD .discovered = .discovered
          rw [hdst]
          rfl
      -- shape of db2 lets the new rows concatenate
        have hb2 : db2.businesses = db.businesses ++ [bb] := by rw [hdb2]
        have hw2 : db2.websites = db.websites := by rw [hdb2]
        refine ⟨bb :: new2, ?_, ?_, ?_, ?_⟩
        · rw [hstep, h1, hb2, List.append_assoc, List.singleton_append]
        · intro r hr
          rcases List.mem_cons.mp hr with heq | hmem
          · subst heq
            exact ⟨hbbst, fun b hb => hid b hb⟩
          · obtain ⟨hst, hfresh⟩ := h2 r hmem
            exact ⟨hst, fun b hb => hfresh b (by rw [hb2]; exact List.mem_append_left _ hb)⟩
        · rw [hstep, h3, hw2]
        · intro h
          rw [hstep]
          exact h4 (insertBusiness_preserves_storeInv db d db2 bb hins h)

/-- One discovery pass only appends fresh `discovered` business rows, never
touches websites, and preserves the structural invariants. -/
theorem discover_extends (db : DB) (cfg : DiscoveryConfig) (area : SearchArea)
    (cat : BusinessCategory) (searchResults : List Place) (details : String → Option Place) :
    ∃ new : List Business,
      (discoverForAreaAndCategory db cfg area cat searchResults details).1.businesses =
        db.businesses ++ new ∧
      (∀ r ∈ new, r.status = BusinessStatus.discovered ∧ ∀ b ∈ db.businesses, b.id ≠ r.id) ∧
      (discoverForAreaAndCategory db cfg area cat searchResults details).1.websites =
        db.websites ∧
      (StoreInv db →
        StoreInv (discoverForAreaAndCategory db cfg area cat searchResults details).1) := by
  unfold discoverForAreaAndCategory
  by_cases hlen : (searchResults.length == 0) = true
  · rw [if_pos hlen]
    exact ⟨[], by simp, by simp, rfl, fun h => h⟩
  · rw [if_neg hlen]
    exact saveLoop_extends cat area _ db

/-- A trivial generation fragment. -/
theorem genEvolves_refl (bid : Nat) (dbA : DB) : genEvolves bid dbA dbA :=
  ⟨forall₂_rowEvolves_refl _, fun _ _ _ h => h, ⟨[], by simp, by simp⟩, fun h => h⟩

/-- Generation fragments compose. -/
theorem genEvolves_comp (bid : Nat) (dbA dbB dbC : DB) (h1 : genEvolves bid dbA dbB)
    (h2 : genEvolves bid dbB dbC) : genEvolves bid dbA dbC := by
  obtain ⟨f1, t1, ⟨w1, hw1, hp1⟩, s1⟩ := h1
  obtain ⟨f2, t2, ⟨w2, hw2, hp2⟩, s2⟩ := h2
  refine ⟨forall₂_rowEvolves_trans f1 f2,
    fun q k hk hb => t2 q k hk (t1 q k hk hb), ⟨w1 ++ w2, ?_, ?_⟩, fun h => s2 (s1 h)⟩
  · rw [hw2, hw1, List.append_assoc]
  · intro w hw
    rcases List.mem_append.mp hw with h | h
    · exact hp1 w h
    · exact hp2 w h

/-- A trivial stage fragment. -/
theorem genStageEvolves_refl (dbA : DB) : genStageEvolves dbA dbA :=
  ⟨forall₂_rowEvolves_refl _, fun _ _ _ h => h, ⟨[], by simp, by simp⟩, fun h => h⟩

/-- Stage fragments compose: owner bounds of earlier appends are carried to
the final snapshot by the later fragment's transfer component. -/
theorem genStageEvolves_comp (dbA dbB dbC : DB) (h1 : genStageEvolves dbA dbB)
    (h2 : genStageEvolves dbB dbC) : genStageEvolves dbA dbC := by
  obtain ⟨f1, t1, ⟨w1, hw1, hp1⟩, s1⟩ := h1
  obtain ⟨f2, t2, ⟨w2, hw2, hp2⟩, s2⟩ := h2
  refine ⟨forall₂_rowEvolves_trans f1 f2,
    fun q k hk hb => t2 q k hk (t1 q k hk hb), ⟨w1 ++ w2, ?_, ?_⟩, fun h => s2 (s1 h)⟩
  · rw [hw2, hw1, List.append_assoc]
  · intro w hw
    rcases List.mem_append.mp hw with h | h
    · obtain ⟨hdep, hbnd⟩ := hp1 w h
      exact ⟨hdep, t2 w.business_id 2 (Nat.le_refl 2) hbnd⟩
    · exact hp2 w h

/-- A single-business generation fragment is a stage fragment once the
business's key is rank-bounded at entry. -/
theorem genEvolves_to_stage (bid : Nat) (dbA dbB : DB) (h : genEvolves bid dbA dbB)
    (hb : ∀ x ∈ dbA.businesses, x.id = bid → statusRank x.status ≤ 2) :
    genStageEvolves dbA dbB := by
  obtain ⟨f1, t1, ⟨w1, hw1, hp1⟩, s1⟩ := h
  refine ⟨f1, t1, ⟨w1, hw1, ?_⟩, s1⟩
  intro w hw
  obtain ⟨hdep, hbid⟩ := hp1 w hw
  refine ⟨hdep, ?_⟩
  rw [hbid]
  exact t1 bid 2 (Nat.le_refl 2) hb

/-- One successful `insertWebsite` call is a generation fragment for its
`business_id`. -/
theorem insertWebsite_gen_step (dbA : DB) (d : WebsiteInsert) (dbB : DB) (w : GeneratedWebsite)
    (h : insertWebsite dbA d = .ok (dbB, w))
    (hb : ∀ x ∈ dbA.businesses, x.id = d.business_id → statusRank x.status ≤ 2) :
    genEvolves d.business_id dbA dbB := by
  obtain ⟨wr, _, hwbid, _, hwdep, _, _, hws, _, hbs⟩ := insertWebsite_ok_elim dbA d dbB w h
  refine ⟨?_, ?_, ⟨[wr], hws, ?_⟩, fun hi => insertWebsite_preserves_storeInv _ _ _ _ h hi⟩
  · rw [hbs]
    refine forall₂_map_self rowEvolves _ _ ?_
    intro b hbmem
    show rowEvolves b (if (b.id == d.business_id) = true then
      applyBusinessUpdate b { status := some BusinessStatus.website_generated } (dbA.tick + 1)
      else b)
    by_cases hc : (b.id == d.business_id) = true
    · rw [if_pos hc]
      exact ⟨rfl, hb b hbmem (by simpa using hc)⟩
    · rw [if_neg hc]
      exact ⟨rfl, Nat.le_refl _⟩
  · intro q k hk hbound x hx hxq
    rw [hbs] at hx
    rcases List.mem_map.mp hx with ⟨x0, hx0, hfx⟩
    by_cases hc : (x0.id == d.business_id) = true
    · have hxx : x = applyBusinessUpdate x0
          { status := some BusinessStatus.website_generated } (dbA.tick + 1) := by
        rw [← hfx]
        simp [hc]
      rw [hxx]
      exact hk
    · have hxx : x = x0 := by
        rw [← hfx]
        simp [hc]
      rw [hxx] at hxq ⊢
      exact hbound x0 hx0 hxq
  · intro w2 hw2
    simp only [List.mem_singleton] at hw2
    subst hw2
    exact ⟨hwdep, hwbid⟩

/-- One step of the per-template fold of `generateForBusiness` is a
generation fragment. -/
theorem genStepFn_evolves (b : Business) (gen : Business → String → Option String)
    (it : Nat × String) (dbA : DB)
    (hb : ∀ x ∈ dbA.businesses, x.id = b.id → statusRank x.status ≤ 2) :
    genEvolves b.id dbA
      (match gen b it.2 with
       | some html =>
         match insertWebsite dbA
           { business_id := b.id
             template_name := it.2
             variation_number := some (it.1 + 1)
             html_content := html } with
         | .ok r => r.1
         | .error _ => dbA
       | none => dbA) := by
  cases hg : gen b it.2 with
  | none => exact genEvolves_refl b.id dbA
  | some html =>
    show genEvolves b.id dbA
      (match insertWebsite dbA
         { business_id := b.id
           template_name := it.2
           variation_number := some (it.1 + 1)
           html_content := html } with
       | .ok r => r.1
       | .error _ => dbA)
    cases hres : insertWebsite dbA
        { business_id := b.id
          template_name := it.2
          variation_number := some (it.1 + 1)
          html_content := html } with
    | error e => exact genEvolves_refl b.id dbA
    | ok r => exact insertWebsite_gen_step dbA _ r.1 r.2 (by rw [hres]) hb

/-- The per-template fold of `generateForBusiness` is a generation
fragment. -/
theorem genFold_inv (b : Business) (gen : Business → String → Option String) :
    ∀ (its : List (Nat × String)) (dbA : DB),
      (∀ x ∈ dbA.businesses, x.id = b.id → statusRank x.status ≤ 2) →
      genEvolves b.id dbA
        (its.foldl
          (fun dbAcc it =>
            match gen b it.2 with
            | some html =>
              match insertWebsite dbAcc
                { business_id := b.id
                  template_name := it.2
                  variation_number := some (it.1 + 1)
                  html_content := html } with
              | .ok r => r.1
              | .error _ => dbAcc
            | none => dbAcc)
          dbA) := by
  intro its
  induction its with
  | nil =>
    intro dbA _
    exact genEvolves_refl b.id dbA
  | cons it rest ih =>
    intro dbA hb
    simp only [List.foldl_cons]
    have hstep := genStepFn_evolves b gen it dbA hb
    exact genEvolves_comp b.id dbA _ _ hstep
      (ih _ (hstep.2.1 b.id 2 (Nat.le_refl 2) hb))

/-- `generateForBusiness` is a generation fragment for its business. -/
theorem generateForBusiness_evolves (dbA : DB) (b : Business) (ts : List String)
    (gen : Business → String → Option String)
    (hb : ∀ x ∈ dbA.businesses, x.id = b.id → statusRank x.status ≤ 2) :
    genEvolves b.id dbA (generateForBusiness dbA b ts gen) :=
  genFold_inv b gen ts.enum dbA hb

/-- Folding `generateForBusiness` over any queue whose members are
rank-bounded at entry is a stage fragment. -/
theorem genQueueFold_inv (gen : Business → String → Option String) (ts : List String) :
    ∀ (queue : List Business) (dbA : DB),
      (∀ bq ∈ queue, ∀ x ∈ dbA.businesses, x.id = bq.id → statusRank x.status ≤ 2) →
      genStageEvolves dbA
        (queue.foldl (fun dbAcc b => generateForBusiness dbAcc b ts gen) dbA) := by
  intro queue
  induction queue with
  | nil =>
    intro dbA _
    exact genStageEvolves_refl dbA
  | cons b rest ih =>
    intro dbA hq
    simp only [List.foldl_cons]
    have h1 : genEvolves b.id dbA (generateForBusiness dbA b ts gen) :=
      generateForBusiness_evolves dbA b ts gen (hq b (List.mem_cons_self b rest))
    have h1s : genStageEvolves dbA (generateForBusiness dbA b ts gen) :=
      genEvolves_to_stage b.id dbA _ h1 (hq b (List.mem_cons_self b rest))
    have hq2 : ∀ bq ∈ rest, ∀ x ∈ (generateForBusiness dbA b ts gen).businesses,
        x.id = bq.id → statusRank x.status ≤ 2 :=
      fun bq hbq => h1.2.1 bq.id 2 (Nat.le_refl 2) (hq bq (List.mem_cons_of_mem b hbq))
    exact genStageEvolves_comp dbA _ _ h1s (ih _ hq2)

/-- The whole generation stage is a stage fragment of the store it starts
from (unique business keys let the queue's rank bound cover all same-key
rows). -/
theorem generateStage_evolves (db : DB) (limit n : Nat)
    (gen : Business → String → Option String) (hN : businessIdsNodup db) :
    genStageEvolves db (generateStage db limit n gen) := by
  refine genQueueFold_inv gen (TEMPLATE_ORDER.take n) (getBusinessesNeedingWebsites db limit)
    db ?_
  intro bq hbq x hx hxid
  obtain ⟨hmem, hrk⟩ := mem_needingWebsites db limit bq hbq
  have hxq : x = bq := List.inj_on_of_nodup_map hN hx hmem hxid
  rw [hxq]
  exact hrk.trans (by decide)

/-- A found `updateWebsite` row is the per-row update of a matching stored
row. -/
theorem updateWebsite_found (db : DB) (id : Nat) (u : WebsiteUpdate) (w0 : GeneratedWebsite)
    (hne : u.isEmpty = false) (hp : (updateWebsite db id u).2 = some w0) :
    ∃ wb ∈ db.websites, wb.id = id ∧ w0 = applyWebsiteUpdate wb u := by
  unfold updateWebsite at hp
  rw [hne] at hp
  simp only [Bool.false_eq_true, if_false] at hp
  by_cases hany : (db.websites.any (fun x => x.id == id)) = true
  · rw [if_pos hany] at hp
    have hp2 : (db.websites.map (fun x => if x.id == id then applyWebsiteUpdate x u
        else x)).find? (fun x => x.id == id) = some w0 := hp
    have hwpred := List.find?_some hp2
    have hwmem := List.mem_of_find?_eq_some hp2
    rcases List.mem_map.mp hwmem with ⟨wb, hwb, hfw⟩
    by_cases hc : (wb.id == id) = true
    · refine ⟨wb, hwb, by simpa using hc, ?_⟩
      rw [← hfw]
      simp [hc]
    · exfalso
      have hwe : w0 = wb := by
        rw [← hfw]
        simp [hc]
      rw [hwe] at hwpred
      exact hc hwpred
  · rw [if_neg hany] at hp
    exact Option.noConfusion hp

/-- `updateWebsite` preserves every website row's key and ownership. -/
theorem updateWebsite_pairs (db : DB) (id : Nat) (u : WebsiteUpdate) :
    (updateWebsite db id u).1.websites.map (fun w => (w.id, w.business_id)) =
      db.websites.map (fun w => (w.id, w.business_id)) := by
  rcases updateWebsite_websites_cases db id u with hw | hw
  · rw [hw]
  · rw [hw, List.map_map]
    have hfun : ((fun w : GeneratedWebsite => (w.id, w.business_id)) ∘
        (fun w => if w.id == id then applyWebsiteUpdate w u else w)) =
        (fun w : GeneratedWebsite => (w.id, w.business_id)) := by
      funext w
      show (((fun w => if w.id == id then applyWebsiteUpdate w u else w) w).id,
            ((fun w => if w.id == id then applyWebsiteUpdate w u else w) w).business_id) =
        (w.id, w.business_id)
      rw [updWFun_id id u w, updWFun_business_id id u w]
    rw [hfun]

/-- The store component of `markWebsiteDeployed`: either the bare
`updateWebsite` result (no row found), or that plus the cascaded owner-status
write. -/
theorem markWebsiteDeployed_fst_eq (db : DB) (id : Nat) (url : String) :
    (markWebsiteDeployed db id url).1 = (updateWebsite db id
      { preview_url := some (some url), deployed_at := some (some db.tick) }).1 ∨
    ∃ w0, (updateWebsite db id
        { preview_url := some (some url), deployed_at := some (some db.tick) }).2 = some w0 ∧
      (markWebsiteDeployed db id url).1 =
        (updateBusinessStatus (updateWebsite db id
            { preview_url := some (some url), deployed_at := some (some db.tick) }).1
          w0.business_id BusinessStatus.deployed).1 := by
  cases hp : (updateWebsite db id
      { preview_url := some (some url), deployed_at := some (some db.tick) }).2 with
  | none =>
    left
    show (match (updateWebsite db id
          { preview_url := some (some url), deployed_at := some (some db.tick) }).2 with
        | some w0 =>
          ((updateBusinessStatus (updateWebsite db id
              { preview_url := some (some url), deployed_at := some (some db.tick) }).1
            w0.business_id BusinessStatus.deployed).1, some w0)
        | none =>
          ((updateWebsite db id
            { preview_url := some (some url), deployed_at := some (some db.tick) }).1,
           (none : Option GeneratedWebsite))).1 =
      (updateWebsite db id
        { preview_url := some (some url), deployed_at := some (some db.tick) }).1
    rw [hp]
  | some w0 =>
    right
    refine ⟨w0, rfl, ?_⟩
    show (match (updateWebsite db id
          { preview_url := some (some url), deployed_at := some (some db.tick) }).2 with
        | some w0 =>
          ((updateBusinessStatus (updateWebsite db id
              { preview_url := some (some url), deployed_at := some (some db.tick) }).1
            w0.business_id BusinessStatus.deployed).1, some w0)
        | none =>
          ((updateWebsite db id
            { preview_url := some (some url), deployed_at := some (some db.tick) }).1,
           (none : Option GeneratedWebsite))).1 =
      (updateBusinessStatus (updateWebsite db id
          { preview_url := some (some url), deployed_at := some (some db.tick) }).1
        w0.business_id BusinessStatus.deployed).1
    rw [hp]

/-- A trivial deployment fragment. -/
theorem deployEvolvesRel_refl (dbA : DB) : deployEvolvesRel dbA dbA :=
  ⟨forall₂_rowEvolves_refl _, fun _ _ _ h => h, rfl, fun h => h⟩

/-- Deployment fragments compose. -/
theorem deployEvolvesRel_comp (dbA dbB dbC : DB) (h1 : deployEvolvesRel dbA dbB)
    (h2 : deployEvolvesRel dbB dbC) : deployEvolvesRel dbA dbC :=
  ⟨forall₂_rowEvolves_trans h1.1 h2.1,
   fun q k hk hb => h2.2.1 q k hk (h1.2.1 q k hk hb),
   h2.2.2.1.trans h1.2.2.1,
   fun h => h2.2.2.2 (h1.2.2.2 h)⟩

/-- One `markWebsiteDeployed` call is a deployment fragment provided every
stored row under the targeted key has a rank-`≤ 3` owner. -/
theorem markWebsiteDeployed_evolves (dbA : DB) (id : Nat) (url : String)
    (hb : ∀ w0 ∈ dbA.websites, w0.id = id →
      ∀ x ∈ dbA.businesses, x.id = w0.business_id → statusRank x.status ≤ 3) :
    deployEvolvesRel dbA (markWebsiteDeployed dbA id url).1 := by
  rcases markWebsiteDeployed_fst_eq dbA id url with h1 | ⟨w0, hp, h1⟩
  · rw [h1]
    refine ⟨?_, ?_, updateWebsite_pairs dbA id _,
      fun h => updateWebsite_preserves_storeInv dbA id _ h⟩
    · rw [updateWebsite_businesses]
      exact forall₂_rowEvolves_refl _
    · intro q k hk hbound x hx hxq
      rw [updateWebsite_businesses] at hx
      exact hbound x hx hxq
  · obtain ⟨wb, hwbmem, hwbid, hw0⟩ := updateWebsite_found dbA id
      { preview_url := some (some url), deployed_at := some (some dbA.tick) } w0 rfl hp
    have hw0bid : w0.business_id = wb.business_id := by
      rw [hw0]
      rfl
    have hbound3 : ∀ x ∈ dbA.businesses, x.id = w0.business_id →
        statusRank x.status ≤ 3 := by
      intro x hx hxid
      exact hb wb hwbmem hwbid x hx (by rw [hxid, hw0bid])
    have hpb : (updateWebsite dbA id
        { preview_url := some (some url), deployed_at := some (some dbA.tick) }).1.businesses =
        dbA.businesses := updateWebsite_businesses _ _ _
    rw [h1]
    by_cases hany : ((updateWebsite dbA id
        { preview_url := some (some url),
          deployed_at := some (some dbA.tick) }).1.businesses.any
        (fun x => x.id == w0.business_id)) = true
    · have hbs : (updateBusinessStatus (updateWebsite dbA id
          { preview_url := some (some url), deployed_at := some (some dbA.tick) }).1
            w0.business_id BusinessStatus.deployed).1.businesses =
          (updateWebsite dbA id
            { preview_url := some (some url),
              deployed_at := some (some dbA.tick) }).1.businesses.map
            (fun b => if b.id == w0.business_id then
              applyBusinessUpdate b { status := some BusinessStatus.deployed }
                (updateWebsite dbA id
                  { preview_url := some (some url),
                    deployed_at := some (some dbA.tick) }).1.tick
              else b) :=
        updateBusiness_businesses_pos _ _ _ hany
      refine ⟨?_, ?_, ?_, ?_⟩
      · rw [hbs, hpb]
        refine forall₂_map_self rowEvolves _ _ ?_
        intro b hbmem
        show rowEvolves b (if (b.id == w0.business_id) = true then
          applyBusinessUpdate b { status := some BusinessStatus.deployed }
            (updateWebsite dbA id
              { preview_url := some (some url),
                deployed_at := some (some dbA.tick) }).1.tick
          else b)
        by_cases hc : (b.id == w0.business_id) = true
        · rw [if_pos hc]
          exact ⟨rfl, hbound3 b hbmem (by simpa using hc)⟩
        · rw [if_neg hc]
          exact ⟨rfl, Nat.le_refl _⟩
      · intro q k hk hbound x hx hxq
        rw [hbs, hpb] at hx
        rcases List.mem_map.mp hx with ⟨x0, hx0, hfx⟩
        by_cases hc : (x0.id == w0.business_id) = true
        · have hxx : x = applyBusinessUpdate x0 { status := some BusinessStatus.deployed }
              (updateWebsite dbA id
                { preview_url := some (some url),
                  deployed_at := some (some dbA.tick) }).1.tick := by
            rw [← hfx]
            simp [hc]
          rw [hxx]
          exact hk
        · have hxx : x = x0 := by
            rw [← hfx]
            simp [hc]
          rw [hxx] at hxq ⊢
          exact hbound x0 hx0 hxq
      · rw [show (updateBusinessStatus (updateWebsite dbA id
            { preview_url := some (some url), deployed_at := some (some dbA.tick) }).1
              w0.business_id BusinessStatus.deployed).1.websites =
            (updateWebsite dbA id
              { preview_url := some (some url),
                deployed_at := some (some dbA.tick) }).1.websites from
          updateBusiness_websites _ _ _]
        exact updateWebsite_pairs dbA id _
      · intro h
        exact updateBusiness_preserves_storeInv _ _ _
          (updateWebsite_preserves_storeInv dbA id _ h)
    · have hbs : (updateBusinessStatus (updateWebsite dbA id
          { preview_url := some (some url), deployed_at := some (some dbA.tick) }).1
            w0.business_id BusinessStatus.deployed).1.businesses =
          (updateWebsite dbA id
            { preview_url := some (some url),
              deployed_at := some (some dbA.tick) }).1.businesses :=
        updateBusiness_businesses_neg _ _ _ hany
      refine ⟨?_, ?_, ?_, ?_⟩
      · rw [hbs, hpb]
        exact forall₂_rowEvolves_refl _
      · intro q k hk hbound x hx hxq
        rw [hbs, hpb] at hx
        exact hbound x hx hxq
      · rw [show (updateBusinessStatus (updateWebsite dbA id
            { preview_url := some (some url), deployed_at := some (some dbA.tick) }).1
              w0.business_id BusinessStatus.deployed).1.websites =
            (updateWebsite dbA id
              { preview_url := some (some url),
                deployed_at := some (some dbA.tick) }).1.websites from
          updateBusiness_websites _ _ _]
        exact updateWebsite_pairs dbA id _
      · intro h
        exact updateBusiness_preserves_storeInv _ _ _
          (updateWebsite_preserves_storeInv dbA id _ h)

/-- The deployment fold is a deployment fragment: queue rows live in the
snapshot `dbD`, website keys/ownership never move, and each queue row's owner
stays rank-bounded until its turn. -/
theorem deployFold_inv (deployOk : GeneratedWebsite → Business → Bool)
    (deployUrl : GeneratedWebsite → Business → String) (dbD : DB)
    (hwN : websiteIdsNodup dbD) :
    ∀ (pend : List GeneratedWebsite) (dbA : DB),
      (∀ w ∈ pend, w ∈ dbD.websites) →
      dbA.websites.map (fun w => (w.id, w.business_id)) =
        dbD.websites.map (fun w => (w.id, w.business_id)) →
      (∀ w ∈ pend, ∀ x ∈ dbA.businesses, x.id = w.business_id → statusRank x.status ≤ 3) →
      deployEvolvesRel dbA
        (pend.foldl
          (fun dbAcc w =>
            match getBusinessById dbAcc w.business_id with
            | none => dbAcc
            | some b =>
              if deployOk w b then (markWebsiteDeployed dbAcc w.id (deployUrl w b)).1
              else dbAcc)
          dbA) := by
  intro pend
  induction pend with
  | nil =>
    intro dbA _ _ _
    exact deployEvolvesRel_refl dbA
  | cons w rest ih =>
    intro dbA hpend hpairs hq
    simp only [List.foldl_cons]
    have hstep : deployEvolvesRel dbA
        (match getBusinessById dbA w.business_id with
         | none => dbA
         | some b =>
           if deployOk w b then (markWebsiteDeployed dbA w.id (deployUrl w b)).1
           else dbA) := by
      cases hg : getBusinessById dbA w.business_id with
      | none => exact deployEvolvesRel_refl dbA
      | some b =>
        show deployEvolvesRel dbA
          (if deployOk w b then (markWebsiteDeployed dbA w.id (deployUrl w b)).1 else dbA)
        by_cases hok : deployOk w b = true
        · rw [if_pos hok]
          refine markWebsiteDeployed_evolves dbA w.id (deployUrl w b) ?_
          intro w0 hw0 hw0id x hx hxid
          have hpair : (w0.id, w0.business_id) ∈
              dbD.websites.map (fun w => (w.id, w.business_id)) := by
            rw [← hpairs]
            exact List.mem_map_of_mem _ hw0
          rcases List.mem_map.mp hpair with ⟨y, hy, hyeq⟩
          have hyid : y.id = w0.id := congrArg Prod.fst hyeq
          have hybid : y.business_id = w0.business_id := congrArg Prod.snd hyeq
          have hyw : y = w := List.inj_on_of_nodup_map hwN hy
            (hpend w (List.mem_cons_self w rest)) (by rw [hyid, hw0id])
          refine hq w (List.mem_cons_self w rest) x hx ?_
          rw [hxid, ← hybid, hyw]
        · rw [if_neg hok]
          exact deployEvolvesRel_refl dbA
    refine deployEvolvesRel_comp dbA _ _ hstep (ih _ ?_ ?_ ?_)
    · exact fun w2 hw2 => hpend w2 (List.mem_cons_of_mem w hw2)
    · exact hstep.2.2.1.trans hpairs
    · intro w2 hw2
      exact hstep.2.1 w2.business_id 3 (Nat.le_refl 3)
        (hq w2 (List.mem_cons_of_mem w hw2))

/-- The whole deployment stage is a deployment fragment of the store it
starts from, provided every pending website's owner is rank-bounded. -/
theorem deployStage_evolves (db : DB) (limit : Nat)
    (deployOk : GeneratedWebsite → Business → Bool)
    (deployUrl : GeneratedWebsite → Business → String)
    (hwN : websiteIdsNodup db) (hpb : pendingOwnersBounded db) :
    deployEvolvesRel db (deployStage db limit deployOk deployUrl) := by
  refine deployFold_inv deployOk deployUrl db hwN (getWebsitesPendingDeployment db limit) db
    ?_ rfl ?_
  · exact fun w hw => (mem_pendingDeployment db limit w hw).1
  · intro w hw
    obtain ⟨hmem, hdep⟩ := mem_pendingDeployment db limit w hw
    exact hpb w hmem hdep

/-- C2 (counterexample to the claim as stated): from a reachable store whose
business is already `contacted` while its generated website is still pending,
one pipeline run regresses the business to `deployed`. -/
theorem c2_counterexample :
    Reachable exDBContacted ∧
    statusOf exDBContacted 0 = some BusinessStatus.contacted ∧
    statusOf (pipelineRun exDBContacted cfgDefault areaHS BusinessCategory.restaurant []
        detailsNone 10 2 genNone 10 deployOkAll deployUrlMock) 0 =
      some BusinessStatus.deployed ∧
    statusRank BusinessStatus.deployed < statusRank BusinessStatus.contacted := by
  refine ⟨?_, by decide, by decide, by decide⟩
  have s1 : Step emptyDB exDB1 :=
    Step.insertBusinessStep emptyDB exBizIns exDB1 (resolveBusinessInsert exBizIns 0 0)
      (by decide)
  have s2 : Step exDB1 exDBPending :=
    Step.insertWebsiteStep exDB1 exWebIns exDBPending
      { id := 1
        business_id := 0
        template_name := "suspended_dark"
        variation_number := 1
        html_content := "<html></html>"
        preview_url := none
        deployed_at := none
        created_at := 1 }
      (by decide)
  have s3 : Step exDBPending exDBContacted :=
    Step.logOutreachStep exDBPending exOutIns exDBContacted
      { id := 3
        business_id := 0
        method := "email"
        sent_at := 3
        response := none
        notes := none }
      (by decide)
  exact Relation.ReflTransGen.tail
    (Relation.ReflTransGen.tail (Relation.ReflTransGen.single s1) s2) s3

/-- C2 (amended): across one pipeline run sequence (discovery, then
generation, then deployment) started from a reachable store in which every
still-pending website is owned by a business at `deployed` or earlier, no
business status regresses against the
`discovered → enriched → website_generated → deployed → contacted → sold`
order.  (The deployment stage rewrites a pending website's owner to
`deployed`, so an owner already past `deployed` — as a `contacted` owner of a
pending website — is regressed, which is why the boundedness hypothesis is
needed.) -/
theorem c2_status_monotone_pipeline (db0 : DB) (cfg : DiscoveryConfig) (area : SearchArea)
    (cat : BusinessCategory) (searchResults : List Place) (details : String → Option Place)
    (genLimit genN : Nat) (gen : Business → String → Option String) (deployLimit : Nat)
    (deployOk : GeneratedWebsite → Business → Bool)
    (deployUrl : GeneratedWebsite → Business → String)
    (hreach : Reachable db0) (hpend : pendingOwnersBounded db0) :
    statusMonotoneFrom db0
      (pipelineRun db0 cfg area cat searchResults details genLimit genN gen
        deployLimit deployOk deployUrl) := by
  have hSI0 : StoreInv db0 := reachable_storeInv db0 hreach
  obtain ⟨new, hb1, hnew, hw1, hSI1f⟩ :=
    discover_extends db0 cfg area cat searchResults details
  have hSI1 : StoreInv (discoverForAreaAndCategory db0 cfg area cat searchResults details).1 :=
    hSI1f hSI0
  have hgen : genStageEvolves
      (discoverForAreaAndCategory db0 cfg area cat searchResults details).1
      (generateStage (discoverForAreaAndCategory db0 cfg area cat searchResults details).1
        genLimit genN gen) :=
    generateStage_evolves _ genLimit genN gen hSI1.1
  have hSI2 : StoreInv
      (generateStage (discoverForAreaAndCategory db0 cfg area cat searchResults details).1
        genLimit genN gen) :=
    hgen.2.2.2 hSI1
  obtain ⟨newW, hw2, hwprop⟩ := hgen.2.2.1
  have hpend2 : pendingOwnersBounded
      (generateStage (discoverForAreaAndCategory db0 cfg area cat searchResults details).1
        genLimit genN gen) := by
    intro w hw hwdep b hb hbid
    rw [hw2] at hw
    rcases List.mem_append.mp hw with hold | hnewW
    · rw [hw1] at hold
      have hbase : ∀ x ∈ (discoverForAreaAndCategory db0 cfg area cat searchResults
          details).1.businesses, x.id = w.business_id → statusRank x.status ≤ 3 := by
        intro x hx hxid
        rw [hb1] at hx
        rcases List.mem_append.mp hx with h0 | hn
        · exact hpend w hold hwdep x h0 hxid
        · rw [(hnew x hn).1]
          decide
      exact hgen.2.1 w.business_id 3 (by decide) hbase b hb hbid
    · obtain ⟨_, hbnd⟩ := hwprop w hnewW
      exact (hbnd b hb hbid).trans (by decide)
  have hdeploy : deployEvolvesRel
      (generateStage (discoverForAreaAndCategory db0 cfg area cat searchResults details).1
        genLimit genN gen)
      (deployStage (generateStage (discoverForAreaAndCategory db0 cfg area cat searchResults
        details).1 genLimit genN gen) deployLimit deployOk deployUrl) :=
    deployStage_evolves _ deployLimit deployOk deployUrl hSI2.2.1 hpend2
  have hF : List.Forall₂ rowEvolves (db0.businesses ++ new)
      (deployStage (generateStage (discoverForAreaAndCategory db0 cfg area cat searchResults
        details).1 genLimit genN gen) deployLimit deployOk deployUrl).businesses := by
    rw [← hb1]
    exact forall₂_rowEvolves_trans hgen.1 hdeploy.1
  show statusMonotoneFrom db0
    (deployStage (generateStage (discoverForAreaAndCategory db0 cfg area cat searchResults
      details).1 genLimit genN gen) deployLimit deployOk deployUrl)
  intro b1 hb1m b2 hb2m hid
  obtain ⟨s, hs, hsid, hsrank⟩ := forall₂_rowEvolves_source hF b2 hb2m
  rcases List.mem_append.mp hs with hs0 | hsn
  · have hseq : s = b1 := List.inj_on_of_nodup_map hSI0.1 hs0 hb1m (by rw [hsid, ← hid])
    rw [← hseq]
    exact hsrank
  · exact absurd (hid.trans hsid.symm) ((hnew s hsn).2 b1 hb1m)

/-- C2 witness: the amended monotonicity theorem evaluated on the concrete
pending-website fixture and the empty-search pipeline instance. -/
theorem c2_witness :
    pendingOwnersBounded exDBPending ∧
    statusMonotoneFrom exDBPending
      (pipelineRun exDBPending cfgDefault areaHS BusinessCategory.restaurant [] detailsNone
        10 2 genNone 10 deployOkAll deployUrlMock) := by
  have s1 : Step emptyDB exDB1 :=
    Step.insertBusinessStep emptyDB exBizIns exDB1 (resolveBusinessInsert exBizIns 0 0)
      (by decide)
  have s2 : Step exDB1 exDBPending :=
    Step.insertWebsiteStep exDB1 exWebIns exDBPending
      { id := 1
        business_id := 0
        template_name := "suspended_dark"
        variation_number := 1
        html_content := "<html></html>"
        preview_url := none
        deployed_at := none
        created_at := 1 }
      (by decide)
  have hr : Reachable exDBPending :=
    Relation.ReflTransGen.tail (Relation.ReflTransGen.single s1) s2
  have hb : pendingOwnersBounded exDBPending := by
    unfold pendingOwnersBounded
    decide
  exact ⟨hb, c2_status_monotone_pipeline exDBPending cfgDefault areaHS
    BusinessCategory.restaurant [] detailsNone 10 2 genNone 10 deployOkAll deployUrlMock
    hr hb⟩

end LocalBiz
